import Mathlib

/-!
LV2Plugins: oscillator bank and MIDI note dispatcher.

Shallow embedding of

* `src/IterativeSinCluster/dsp/oscillator.hpp` (`SomeDSP::BiquadOscN`), and
* `src/SyncSawSynth/plugin.cpp` (`SyncSawSynth::handleMidi`, `run`, `activate`,
  `deactivate`),
* `src/SevenDelay/dsp/scale.hpp` (`BoolScale`, `LinearScale`, `SPolyScale`, `LogScale`),
* `src/common/gui/style.cpp` (`strHexToUint8`, `loadColor`),

followed by theorems about them.

Conventions.

* `std::array<Sample, size>` is a function `Fin size → α`; a store `a[i] = v` is
  `Function.update a i v`.
* A `for (size_t i = 0; i < size; ++i)` loop is a left fold of its body over
  `List.finRange size`, i.e. the indices `0, 1, …, size - 1` in that order.
* `Sample` is an arbitrary field `α` (exact arithmetic).  The functions `sin`, `cos` and the
  constant `twopi` come from headers that are not part of the sources at hand
  (`somemath.hpp`, `constants.hpp`); they are parameters of `setup`.
-/

namespace SomeDSP

/-- The `for (size_t i = 0; i < size; ++i) body` loop: `body` is run for
`i = 0, 1, …, size - 1` in that order, threading the state. -/
def forLoop {σ : Type*} (size : ℕ) (body : Fin size → σ → σ) (init : σ) : σ :=
  (List.finRange size).foldl (fun s i => body i s) init

/-- The data members of `template<typename Sample, size_t size> struct BiquadOscN`. -/
structure BiquadOscN (α : Type*) (size : ℕ) where
  frequency : Fin size → α
  gain : Fin size → α
  u1 : Fin size → α
  u0 : Fin size → α
  k : Fin size → α

namespace BiquadOscN

variable {α : Type*} {size : ℕ}

/-- The value-initialised object (`std::array<Sample, size> x{}` for every member). -/
def init [Zero α] : BiquadOscN α size :=
  { frequency := fun _ => 0, gain := fun _ => 0, u1 := fun _ => 0, u0 := fun _ => 0,
    k := fun _ => 0 }

/-- Body of the loop of `setup` for index `i`:
```
auto omega = Sample(twopi) * frequency[i] / sampleRate;
u0[i] = -sin(omega);
k[i] = 2 * cos(omega);
``` -/
def setupBody [Field α] (sin cos : α → α) (twopi sampleRate : α) (i : Fin size)
    (o : BiquadOscN α size) : BiquadOscN α size :=
  let omega := twopi * o.frequency i / sampleRate
  let o1 := { o with u0 := Function.update o.u0 i (-sin omega) }
  { o1 with k := Function.update o1.k i (2 * cos omega) }

/-- The method `void setup(Sample sampleRate)`: `u1.fill(0)` followed by the loop. -/
def setup [Field α] (sin cos : α → α) (twopi sampleRate : α) (o : BiquadOscN α size) :
    BiquadOscN α size :=
  forLoop size (setupBody sin cos twopi sampleRate) { o with u1 := fun _ => 0 }

/-- Body of the loop of `process` for index `i`, on the pair (object, `sum`):
```
out = k[i] * u1[i] - u0[i];
u0[i] = u1[i];
u1[i] = out;
sum += gain[i] * out;
``` -/
def processBody [Field α] (i : Fin size) (st : BiquadOscN α size × α) : BiquadOscN α size × α :=
  let o := st.1
  let out := o.k i * o.u1 i - o.u0 i
  let o1 := { o with u0 := Function.update o.u0 i (o.u1 i) }
  let o2 := { o1 with u1 := Function.update o1.u1 i out }
  (o2, st.2 + o2.gain i * out)

/-- The method `Sample process()`: returns the new object and the returned sample
`sum / size`. -/
def process [Field α] (o : BiquadOscN α size) : BiquadOscN α size × α :=
  let r := forLoop size processBody (o, (0 : α))
  (r.1, r.2 / (size : α))

/-- The object after `n` consecutive calls of `process`. -/
def afterProcess [Field α] (o : BiquadOscN α size) : ℕ → BiquadOscN α size
  | 0 => o
  | n + 1 => (process (afterProcess o n)).1

/-- The sample returned by the `n`-th call of `process` (`n = 1` is the first call;
`n = 0`, where no call was made, is given the value `0`). -/
def nthOutput [Field α] (o : BiquadOscN α size) : ℕ → α
  | 0 => 0
  | n + 1 => (process (afterProcess o n)).2

/-- The squared-amplitude expression of partial `i`:
`u1[i]^2 - k[i] * u1[i] * u0[i] + u0[i]^2`. -/
def amplitudeSq [Field α] (o : BiquadOscN α size) (i : Fin size) : α :=
  o.u1 i ^ 2 - o.k i * o.u1 i * o.u0 i + o.u0 i ^ 2

end BiquadOscN

end SomeDSP

namespace DISTRHO

/-- The members of the framework type `MidiEvent` that the plugin reads: `size` is the
number of bytes of the message and `data` holds its first four bytes (`uint8_t data[4]`).
Bytes are natural numbers; a message delivered by a host has every byte below `256`. -/
structure MidiEvent where
  frame : ℕ
  size : ℕ
  data : Fin 4 → ℕ

/-- A call made on the member `dsp` (the type `DSPCore` lives in `dsp/dspcore.hpp`, which
is not among the sources at hand, so the member is represented by the calls it receives):

* `noteOn noteId noteNumber tuning velocity` is `dsp.noteOn(noteId, noteNumber, tuning, velocity)`,
* `noteOff noteId` is `dsp.noteOff(noteId)`,
* `pitchBendSetFromRaw v` is `dsp.param.value[ParameterID::pitchBend]->setFromRaw(v)`,
* `startup`, `reset`, `setParameters` are `dsp.startup()`, `dsp.reset()`,
  `dsp.setParameters()`,
* `process frames` is `dsp.process(frames, outputs[0], outputs[1])`. -/
inductive DspCall where
  | noteOn (noteId : ℕ) (noteNumber : ℕ) (tuning : ℚ) (velocity : ℚ)
  | noteOff (noteId : ℕ)
  | pitchBendSetFromRaw (value : ℚ)
  | startup
  | reset
  | setParameters
  | process (frames : ℕ)
  deriving DecidableEq

/-- The id of a recorded `dsp.noteOn` call, `none` for any other call. -/
def DspCall.noteOnId? : DspCall → Option ℕ
  | DspCall.noteOn noteId _ _ _ => some noteId
  | _ => none

/-- Whether a recorded call is a `dsp.noteOff` call. -/
def DspCall.isNoteOff : DspCall → Bool
  | DspCall.noteOff _ => true
  | _ => false

/-- The ids passed to `dsp.noteOn`, in the order of the calls. -/
def noteOnIds (calls : List DspCall) : List ℕ :=
  calls.filterMap DspCall.noteOnId?

/-- The number of `dsp.noteOff` calls. -/
def noteOffCount (calls : List DspCall) : ℕ :=
  calls.countP DspCall.isNoteOff

/-- Number of values of `uint32_t`. -/
def UINT32_SIZE : ℕ := 2 ^ 32

/-- The constant `INT8_MAX`. -/
def INT8_MAX : ℕ := 127

/-- The private data members of `class SyncSawSynth`.  `dsp` is the list of calls made on
the member `dsp` so far, oldest first. -/
structure SyncSawSynth where
  dsp : List DspCall
  wasPlaying : Bool
  noteId : ℕ
  lastNoteId : List (ℕ × ℕ)
  alreadyRecievedNote : List ℕ

namespace SyncSawSynth

/-- The object right after construction: `wasPlaying = false`, `noteId = 0`, both vectors
empty. -/
def init : SyncSawSynth :=
  { dsp := [], wasPlaying := false, noteId := 0, lastNoteId := [], alreadyRecievedNote := [] }

/-- The `case 0x80` branch of `handleMidi`.  The iterator `it` returned by `std::find_if`
is the index of the first pair whose first component is `ev.data[1]`, and equals the length
of the vector (`std::end`) when there is none; `erase(it)` removes the element at that
index. -/
def noteOffCase (s : SyncSawSynth) (ev : MidiEvent) : SyncSawSynth :=
  let it := s.lastNoteId.findIdx (fun p => p.1 == ev.data 1)
  if h : it < s.lastNoteId.length then
    { s with
      dsp := s.dsp ++ [DspCall.noteOff (s.lastNoteId.get ⟨it, h⟩).2]
      lastNoteId := s.lastNoteId.eraseIdx it }
  else s

/-- The `case 0x90` branch of `handleMidi`.  The range-for loop with
`goto NoteAlreadyPressed` is the test whether some element of `alreadyRecievedNote` equals
`ev.data[1]`; `noteId += 1` is taken modulo `2 ^ 32`. -/
def noteOnCase (s : SyncSawSynth) (ev : MidiEvent) : SyncSawSynth :=
  if ev.data 2 > 0 then
    if s.alreadyRecievedNote.any (fun noteNo => noteNo == ev.data 1) then s
    else
      { s with
        dsp := s.dsp ++
          [DspCall.noteOn s.noteId (ev.data 1) 0 ((ev.data 2 : ℚ) / (INT8_MAX : ℚ))]
        lastNoteId := s.lastNoteId ++ [(ev.data 1, s.noteId)]
        alreadyRecievedNote := s.alreadyRecievedNote ++ [ev.data 1]
        noteId := (s.noteId + 1) % UINT32_SIZE }
  else s

/-- The `case 0xe0` branch of `handleMidi`. -/
def pitchBendCase (s : SyncSawSynth) (ev : MidiEvent) : SyncSawSynth :=
  { s with
    dsp := s.dsp ++
      [DspCall.pitchBendSetFromRaw ((((ev.data 2 <<< 7) + ev.data 1 : ℕ) : ℚ) / 16384)] }

/-- The method `void handleMidi(const MidiEvent ev)`. -/
def handleMidi (s : SyncSawSynth) (ev : MidiEvent) : SyncSawSynth :=
  if ev.size ≠ 3 then s
  else if ev.data 0 &&& 0xf0 = 0x80 then noteOffCase s ev
  else if ev.data 0 &&& 0xf0 = 0x90 then noteOnCase s ev
  else if ev.data 0 &&& 0xf0 = 0xe0 then pitchBendCase s ev
  else s

/-- A three-byte message `status, data1, data2`. -/
def midi3 (status data1 data2 : ℕ) : MidiEvent :=
  { frame := 0, size := 3, data := ![status, data1, data2, 0] }

/-- The method `void activate() { dsp.startup(); }`. -/
def activate (s : SyncSawSynth) : SyncSawSynth :=
  { s with dsp := s.dsp ++ [DspCall.startup] }

/-- The method `void deactivate() { dsp.reset(); }`. -/
def deactivate (s : SyncSawSynth) : SyncSawSynth :=
  { s with dsp := s.dsp ++ [DspCall.reset] }

/-- What one call of `run` receives from the host: whether `outputs` is the null pointer,
whether the `bypass` parameter reads non-zero, `getTimePosition().playing`, `frames`, and
the `midiEventCount` events of `midiEvents`. -/
structure RunInput where
  outputsNull : Bool
  bypass : Bool
  playing : Bool
  frames : ℕ
  midiEvents : List MidiEvent

/-- The part of `run` between the two early returns and the event loop:
```
if (!wasPlaying && timePos.playing) dsp.startup();
wasPlaying = timePos.playing;
``` -/
def runBegin (s : SyncSawSynth) (inp : RunInput) : SyncSawSynth :=
  let s1 := if !s.wasPlaying && inp.playing then { s with dsp := s.dsp ++ [DspCall.startup] }
    else s
  { s1 with wasPlaying := inp.playing }

/-- The part of `run` after the event loop:
```
alreadyRecievedNote.resize(0);
dsp.setParameters();
dsp.process(frames, outputs[0], outputs[1]);
``` -/
def runEnd (s : SyncSawSynth) (inp : RunInput) : SyncSawSynth :=
  { s with
    alreadyRecievedNote := []
    dsp := s.dsp ++ [DspCall.setParameters, DspCall.process inp.frames] }

/-- The method `run`: the two early returns, then `runBegin`, the loop
`for (size_t i = 0; i < midiEventCount; ++i) handleMidi(midiEvents[i]);` and `runEnd`. -/
def run (s : SyncSawSynth) (inp : RunInput) : SyncSawSynth :=
  if inp.outputsNull then s
  else if inp.bypass then s
  else runEnd (inp.midiEvents.foldl handleMidi (runBegin s inp)) inp

/-- A call on the plugin object.  The host calls `run`, `activate` and `deactivate`;
`handleMidi` is called by `run` only, and is listed to reach the states inside a block. -/
inductive Call where
  | run (inp : RunInput)
  | handleMidi (ev : MidiEvent)
  | activate
  | deactivate

/-- Whether the call is one the host makes (`run`, `activate`, `deactivate`). -/
def Call.isHost : Call → Bool
  | Call.handleMidi _ => false
  | _ => true

/-- The object after one call. -/
def exec (s : SyncSawSynth) : Call → SyncSawSynth
  | Call.run inp => run s inp
  | Call.handleMidi ev => handleMidi s ev
  | Call.activate => activate s
  | Call.deactivate => deactivate s

/-- The object after a sequence of calls, first call first. -/
def execAll (s : SyncSawSynth) (calls : List Call) : SyncSawSynth :=
  calls.foldl exec s

/-- A block of `64` frames with the transport stopped, carrying the given events. -/
def block (evs : List MidiEvent) : RunInput :=
  { outputsNull := false, bypass := false, playing := false, frames := 64, midiEvents := evs }

/-- The bookkeeping that every call keeps true, with `n` the number of `dsp.noteOn` calls
made so far: the counter is `n` modulo `2 ^ 32`; the ids passed to `dsp.noteOn` are
`0, 1, …, n - 1` modulo `2 ^ 32`, in this order; the ids held in `lastNoteId` are, in list
order, a sublist of them; `lastNoteId` has as many entries as there were `dsp.noteOn` calls
minus `dsp.noteOff` calls; and `alreadyRecievedNote` has no repeated note number. -/
def Consistent (s : SyncSawSynth) : Prop :=
  s.noteId = (noteOnIds s.dsp).length % UINT32_SIZE ∧
    noteOnIds s.dsp = (List.range (noteOnIds s.dsp).length).map (fun i => i % UINT32_SIZE) ∧
    (s.lastNoteId.map Prod.snd).Sublist (noteOnIds s.dsp) ∧
    s.lastNoteId.length + noteOffCount s.dsp = (noteOnIds s.dsp).length ∧
    s.alreadyRecievedNote.Nodup

end SyncSawSynth

end DISTRHO

namespace Scale

/-!
Embedding of `src/SevenDelay/dsp/scale.hpp`.  For `LinearScale`, `SPolyScale` and
`LogScale` the template parameter `T` is a linearly ordered field `α` (exact arithmetic);
`T(0.5)` is `1 / 2`; the functions `pow` and `log` of `<cmath>` are parameters; `fabs` is
the absolute value of `α`.  `BoolScale` does no arithmetic, it only compares its input with
`T(0.5)`; there a value of `T` is a `FloatValue`: a number, an infinity or a NaN, compared
the way floating-point values are.
-/

/-- A value of a floating-point type `T`, as far as the comparison operators see it: a
number `finite x`, plus infinity, minus infinity, or a NaN. -/
inductive FloatValue (α : Type*) where
  | finite (x : α)
  | posInf
  | negInf
  | nan

namespace FloatValue

variable {α : Type*} [LinearOrderedField α]

/-- The operator `a < b` on floating-point values: false when either operand is a NaN. -/
def lt : FloatValue α → FloatValue α → Bool
  | nan, _ => false
  | _, nan => false
  | finite x, finite y => decide (x < y)
  | finite _, posInf => true
  | finite _, negInf => false
  | posInf, _ => false
  | negInf, negInf => false
  | negInf, _ => true

/-- The operator `a <= b` on floating-point values: false when either operand is a NaN. -/
def le : FloatValue α → FloatValue α → Bool
  | nan, _ => false
  | _, nan => false
  | finite x, finite y => decide (x ≤ y)
  | finite _, posInf => true
  | finite _, negInf => false
  | posInf, posInf => true
  | posInf, _ => false
  | negInf, _ => true

end FloatValue

/-- The class `BoolScale` has no data members; these are its methods. -/
structure BoolScale where

namespace BoolScale

variable {α : Type*} [LinearOrderedField α]

/-- The method `bool map(T input) const { return input > T(0.5); }`. -/
def map (input : FloatValue α) : Bool :=
  FloatValue.lt (FloatValue.finite (1 / 2)) input

/-- The method `bool reverseMap(T input) const { return input <= T(0.5); }`. -/
def reverseMap (input : FloatValue α) : Bool :=
  FloatValue.le input (FloatValue.finite (1 / 2))

/-- The method `T invmap(bool input) const { return T(input); }`: `T(true)` is `1` and
`T(false)` is `0`. -/
def invmap (input : Bool) : FloatValue α :=
  FloatValue.finite (if input then 1 else 0)

end BoolScale

/-- The data members of `class LinearScale`. -/
structure LinearScale (α : Type*) where
  scale : α
  min : α
  max : α

namespace LinearScale

variable {α : Type*} [LinearOrderedField α]

/-- The method `void set(T min, T max)`; it assigns all three members, and the constructor
`LinearScale(T min, T max)` only calls it. -/
def set (min max : α) : LinearScale α :=
  { min := min, max := max, scale := max - min }

/-- The method `T map(T input) const`. -/
def map (self : LinearScale α) (input : α) : α :=
  let value := input * self.scale + self.min
  if value < self.min then self.min
  else if value > self.max then self.max
  else value

/-- The method `T reverseMap(T input) const { return map(T(1.0) - input); }`. -/
def reverseMap (self : LinearScale α) (input : α) : α := self.map (1 - input)

/-- The method `T invmap(T input) const`. -/
def invmap (self : LinearScale α) (input : α) : α :=
  let value := (input - self.min) / self.scale
  if value < 0 then 0
  else if value > 1 then 1
  else value

end LinearScale

/-- The data members of `class SPolyScale`. -/
structure SPolyScale (α : Type*) where
  scale : α
  min : α
  max : α
  power : α
  powerInv : α

namespace SPolyScale

variable {α : Type*} [LinearOrderedField α]

/-- The method `void set(T min, T max, T power)`; it assigns all five members, and the
constructor only calls it. -/
def set (min max power : α) : SPolyScale α :=
  { min := min, max := max, power := power, powerInv := 1 / power, scale := max - min }

/-- The method `T map(T input) const`. -/
def map (pow : α → α → α) (self : SPolyScale α) (input : α) : α :=
  if input < 0 then self.min
  else if input > 1 then self.max
  else
    let value := if input ≤ 1 / 2 then 1 / 2 * pow (2 * input) self.power
      else 1 - 1 / 2 * pow (2 - 2 * input) self.power
    value * self.scale + self.min

/-- The method `T reverseMap(T input) const { return map(T(1.0) - input); }`. -/
def reverseMap (pow : α → α → α) (self : SPolyScale α) (input : α) : α :=
  map pow self (1 - input)

/-- The method `T invmap(T input) const`. -/
def invmap (pow : α → α → α) (self : SPolyScale α) (input : α) : α :=
  if input < self.min then 0
  else if input > self.max then 1
  else
    let value := (input - self.min) / self.scale
    if value ≤ 1 / 2 then 1 / 2 * pow (2 * value) self.powerInv
    else 1 - 1 / 2 * pow (2 - 2 * value) self.powerInv

end SPolyScale

/-- The data members of `class LogScale`. -/
structure LogScale (α : Type*) where
  scale : α
  expo : α
  expoInv : α
  min : α
  max : α

namespace LogScale

variable {α : Type*} [LinearOrderedField α]

/-- The method `void set(T min, T max, T inValue, T outValue)`; it assigns all five members,
and the constructor only calls it. -/
def set (log : α → α) (min max inValue outValue : α) : LogScale α :=
  let scale := |max - min|
  let expo := log (|outValue - min| / scale) / log inValue
  { min := min, max := max, scale := scale, expo := expo, expoInv := 1 / expo }

/-- The method `T map(T input) const`. -/
def map (pow : α → α → α) (self : LogScale α) (input : α) : α :=
  if input < 0 then self.min
  else if input > 1 then self.max
  else pow input self.expo * self.scale + self.min

/-- The method `T reverseMap(T input) const { return map(T(1.0) - input); }`. -/
def reverseMap (pow : α → α → α) (self : LogScale α) (input : α) : α :=
  map pow self (1 - input)

/-- The method `T invmap(T input) const`. -/
def invmap (pow : α → α → α) (self : LogScale α) (input : α) : α :=
  if input < self.min then 0
  else if input > self.max then 1
  else pow ((input - self.min) / self.scale) self.expoInv

end LogScale

end Scale

namespace Style

/-!
Embedding of `strHexToUint8` and `loadColor` of `src/common/gui/style.cpp`.  A `std::string`
is the list of its `char`s.  The JSON library, `std::stoi` and `DGL::Color` are not part of
the sources at hand: a JSON value is modelled as far as `loadColor` looks at it, `std::stoi`
follows the C++ standard, and a colour is the four arguments given to its constructor.  A
function in which `std::stoi` throws returns `none`.
-/

/-- A member value of a JSON object, as far as `loadColor` distinguishes: a string, or
anything else. -/
inductive JsonValue where
  | string (value : List Char)
  | other

/-- A JSON document, as far as `loadColor` distinguishes: an object with members, or
anything else (for which `contains` is false). -/
inductive Json where
  | object (members : List (List Char × JsonValue))
  | other

/-- The library call `data.contains(key)`. -/
def Json.contains (data : Json) (key : List Char) : Bool :=
  match data with
  | Json.object members => (members.lookup key).isSome
  | Json.other => false

/-- The library call `data[key]`, for a key that the object contains. -/
def Json.get? (data : Json) (key : List Char) : Option JsonValue :=
  match data with
  | Json.object members => members.lookup key
  | Json.other => none

/-- The four arguments of the constructor call `DGL::Color(red, green, blue, alpha)`. -/
structure Color where
  red : ℤ
  green : ℤ
  blue : ℤ
  alpha : ℤ
  deriving DecidableEq

/-- The value of a hexadecimal digit, `none` for any other `char`. -/
def hexDigit? (c : Char) : Option ℕ :=
  if 48 ≤ c.toNat ∧ c.toNat ≤ 57 then some (c.toNat - 48)
  else if 97 ≤ c.toNat ∧ c.toNat ≤ 102 then some (c.toNat - 87)
  else if 65 ≤ c.toNat ∧ c.toNat ≤ 70 then some (c.toNat - 55)
  else none

/-- The library function `isspace` in the C locale: space, `\t`, `\n`, `\v`, `\f`,
`\r`. -/
def isSpace (c : Char) : Bool :=
  c.toNat = 32 ∨ (9 ≤ c.toNat ∧ c.toNat ≤ 13)

/-- The library call `std::stoi(str, 0, 16)`: leading white space is skipped, then an
optional sign and an optional `0x` or `0X` (when a hexadecimal digit follows it) are read,
then as many hexadecimal digits as there are.  `none` stands for an exception:
`std::invalid_argument` when there is no digit, `std::out_of_range` when the value does not
fit an `int`. -/
def stoi16 (str : List Char) : Option ℤ :=
  let s1 := str.dropWhile isSpace
  let negative := s1.head? = some '-'
  let s2 := if s1.head? = some '-' ∨ s1.head? = some '+' then s1.tail else s1
  let s3 := match s2 with
    | c0 :: x :: d :: rest =>
      if c0 = '0' ∧ (x = 'x' ∨ x = 'X') ∧ (hexDigit? d).isSome then d :: rest else s2
    | _ => s2
  let digits := (s3.takeWhile (fun c => (hexDigit? c).isSome)).filterMap hexDigit?
  if digits = [] then none
  else
    let magnitude : ℤ := (digits.foldl (fun acc d => 16 * acc + d) 0 : ℕ)
    let value : ℤ := if negative then -magnitude else magnitude
    if value < -2147483648 ∨ 2147483647 < value then none else some value

/-- The library template `std::clamp<int>(v, lo, hi)`:
`(v < lo) ? lo : (hi < v) ? hi : v`. -/
def clamp (v lo hi : ℤ) : ℤ :=
  if v < lo then lo else if hi < v then hi else v

/-- The function `int strHexToUint8(std::string str)`. -/
def strHexToUint8 (str : List Char) : Option ℤ :=
  (stoi16 str).map (fun v => clamp v 0 255)

/-- The library call `str.substr(pos, len)` for `pos ≤ str.size()`, which is the case at
every call in `loadColor`. -/
def substr (str : List Char) (pos len : ℕ) : List Char :=
  (str.drop pos).take len

/-- The function `void loadColor(nlohmann::json &data, std::string key, DGL::Color &color)`:
the result is the value of `color` afterwards. -/
def loadColor (data : Json) (key : List Char) (color : Color) : Option Color :=
  if !data.contains key then some color
  else
    match data.get? key with
    | some (JsonValue.string hex) =>
      if hex.length ≠ 7 ∧ hex.length ≠ 9 then some color
      else do
        let red ← strHexToUint8 (substr hex 1 2)
        let green ← strHexToUint8 (substr hex 3 2)
        let blue ← strHexToUint8 (substr hex 5 2)
        let alpha ← if hex.length ≠ 9 then some 255 else strHexToUint8 (substr hex 7 2)
        some { red := red, green := green, blue := blue, alpha := alpha }
    | _ => some color

/-- The value of a pair of hexadecimal digits, `16 * first + second`. -/
def pairValue (first second : Char) : ℤ :=
  (16 * (hexDigit? first).getD 0 + (hexDigit? second).getD 0 : ℕ)

end Style

/-! ## Theorems -/

namespace SomeDSP

namespace BiquadOscN

variable {α : Type*} {size : ℕ}

/-! ### The loops, index by index -/

/-- One pass of the `setup` loop over a list of indices: indices on the list get their new
`u0` and `k`, the others keep theirs; `frequency`, `gain`, `u1` are not written. -/
theorem setup_foldl [Field α] (sin cos : α → α) (twopi sampleRate : α) (l : List (Fin size))
    (o : BiquadOscN α size) :
    let r := l.foldl (fun s i => setupBody sin cos twopi sampleRate i s) o
    r.frequency = o.frequency ∧ r.gain = o.gain ∧ r.u1 = o.u1 ∧
      (∀ j, r.u0 j = if j ∈ l then -sin (twopi * o.frequency j / sampleRate) else o.u0 j) ∧
      (∀ j, r.k j = if j ∈ l then 2 * cos (twopi * o.frequency j / sampleRate) else o.k j) := by
  induction l generalizing o with
  | nil => simp
  | cons a l ih =>
    have h := ih (setupBody sin cos twopi sampleRate a o)
    simp only [List.foldl_cons] at h ⊢
    obtain ⟨h1, h2, h3, h4, h5⟩ := h
    refine ⟨h1, h2, h3, fun j => ?_, fun j => ?_⟩
    · rw [h4 j]
      by_cases hj : j ∈ l
      · simp [hj, setupBody]
      · by_cases hja : j = a
        · subst hja; simp [hj, setupBody]
        · simp [hj, hja, setupBody]
    · rw [h5 j]
      by_cases hj : j ∈ l
      · simp [hj, setupBody]
      · by_cases hja : j = a
        · subst hja; simp [hj, setupBody]
        · simp [hj, hja, setupBody]

/-- One pass of the `process` loop over a duplicate-free list of indices. -/
theorem process_foldl [Field α] (l : List (Fin size)) (hl : l.Nodup)
    (o : BiquadOscN α size) (s : α) :
    let r := l.foldl (fun st i => processBody i st) (o, s)
    r.1.frequency = o.frequency ∧ r.1.gain = o.gain ∧ r.1.k = o.k ∧
      (∀ j, r.1.u0 j = if j ∈ l then o.u1 j else o.u0 j) ∧
      (∀ j, r.1.u1 j = if j ∈ l then o.k j * o.u1 j - o.u0 j else o.u1 j) ∧
      r.2 = s + (l.map (fun i => o.gain i * (o.k i * o.u1 i - o.u0 i))).sum := by
  induction l generalizing o s with
  | nil => simp
  | cons a l ih =>
    obtain ⟨ha, hl'⟩ := List.nodup_cons.mp hl
    have h := ih hl' (processBody a (o, s)).1 (processBody a (o, s)).2
    simp only [List.foldl_cons, Prod.mk.eta] at h ⊢
    obtain ⟨h1, h2, h3, h4, h5, h6⟩ := h
    have hne : ∀ i ∈ l, i ≠ a := fun i hi hia => ha (hia ▸ hi)
    refine ⟨h1, h2, h3, fun j => ?_, fun j => ?_, ?_⟩
    · rw [h4 j]
      by_cases hj : j ∈ l
      · simp [hj, processBody, hne j hj]
      · by_cases hja : j = a
        · subst hja; simp [hj, processBody]
        · simp [hj, hja, processBody]
    · rw [h5 j]
      by_cases hj : j ∈ l
      · simp [hj, processBody, hne j hj]
      · by_cases hja : j = a
        · subst hja; simp [hj, processBody]
        · simp [hj, hja, processBody]
    · rw [h6]
      have hmap : l.map (fun i => (processBody a (o, s)).1.gain i *
            ((processBody a (o, s)).1.k i * (processBody a (o, s)).1.u1 i -
              (processBody a (o, s)).1.u0 i)) =
          l.map (fun i => o.gain i * (o.k i * o.u1 i - o.u0 i)) := by
        apply List.map_congr_left
        intro i hi
        simp [processBody, hne i hi]
      rw [hmap]
      simp [processBody, add_assoc]

/-- The `process` loop over all indices: every register pair is advanced once, from the
old registers, and `sum` is the gain-weighted sum of the new samples. -/
theorem process_loop [Field α] (o : BiquadOscN α size) :
    let r := forLoop size processBody (o, (0 : α))
    r.1.frequency = o.frequency ∧ r.1.gain = o.gain ∧ r.1.k = o.k ∧
      (∀ j, r.1.u0 j = o.u1 j) ∧ (∀ j, r.1.u1 j = o.k j * o.u1 j - o.u0 j) ∧
      r.2 = ∑ i, o.gain i * (o.k i * o.u1 i - o.u0 i) := by
  have h := process_foldl (List.finRange size) (List.nodup_finRange size) o 0
  simp only [List.mem_finRange, if_true, zero_add] at h
  obtain ⟨h1, h2, h3, h4, h5, h6⟩ := h
  refine ⟨h1, h2, h3, h4, h5, ?_⟩
  rw [Fin.sum_univ_def]
  exact h6

/-- The registers after `n` calls of `process` that follow `setup`, in exact real
arithmetic: `u1[i] = sin (n ω_i)` and `u0[i] = sin ((n - 1) ω_i)`, and the arrays
`frequency`, `gain`, `k` are the ones `setup` left. -/
theorem afterProcess_setup (sampleRate : ℝ) (o : BiquadOscN ℝ size) (n : ℕ) :
    let r := afterProcess (setup Real.sin Real.cos (2 * Real.pi) sampleRate o) n
    r.gain = o.gain ∧
      (∀ i, r.k i = 2 * Real.cos (2 * Real.pi * o.frequency i / sampleRate)) ∧
      (∀ i, r.u1 i = Real.sin (n * (2 * Real.pi * o.frequency i / sampleRate))) ∧
      (∀ i, r.u0 i = Real.sin ((n - 1) * (2 * Real.pi * o.frequency i / sampleRate))) := by
  induction n with
  | zero =>
    have h := setup_foldl Real.sin Real.cos (2 * Real.pi) sampleRate (List.finRange size)
      { o with u1 := fun _ => 0 }
    simp only [List.mem_finRange, if_true] at h
    obtain ⟨_, h2, h3, h4, h5⟩ := h
    refine ⟨h2, h5, fun i => ?_, fun i => ?_⟩
    · have : (setup Real.sin Real.cos (2 * Real.pi) sampleRate o).u1 i = 0 := congrFun h3 i
      simpa [afterProcess] using this
    · have : (setup Real.sin Real.cos (2 * Real.pi) sampleRate o).u0 i =
          -Real.sin (2 * Real.pi * o.frequency i / sampleRate) := h4 i
      simp only [afterProcess, this, Nat.cast_zero, zero_sub, neg_mul, one_mul, Real.sin_neg]
  | succ n ih =>
    obtain ⟨g, hk, hu1, hu0⟩ := ih
    obtain ⟨_, p2, p3, p4, p5, _⟩ :=
      process_loop (afterProcess (setup Real.sin Real.cos (2 * Real.pi) sampleRate o) n)
    refine ⟨p2.trans g, fun i => (congrFun p3 i).trans (hk i), fun i => ?_, fun i => ?_⟩
    · have e : (afterProcess (setup Real.sin Real.cos (2 * Real.pi) sampleRate o) (n + 1)).u1 i
          = _ := p5 i
      rw [e, hk i, hu1 i, hu0 i]
      have s1 := Real.sin_add ((n : ℝ) * (2 * Real.pi * o.frequency i / sampleRate))
        (2 * Real.pi * o.frequency i / sampleRate)
      have s2 := Real.sin_sub ((n : ℝ) * (2 * Real.pi * o.frequency i / sampleRate))
        (2 * Real.pi * o.frequency i / sampleRate)
      have a1 : ((n + 1 : ℕ) : ℝ) * (2 * Real.pi * o.frequency i / sampleRate) =
          (n : ℝ) * (2 * Real.pi * o.frequency i / sampleRate) +
            2 * Real.pi * o.frequency i / sampleRate := by push_cast; ring
      have a2 : ((n : ℝ) - 1) * (2 * Real.pi * o.frequency i / sampleRate) =
          (n : ℝ) * (2 * Real.pi * o.frequency i / sampleRate) -
            2 * Real.pi * o.frequency i / sampleRate := by ring
      rw [a1, a2, s1, s2]
      ring
    · have e : (afterProcess (setup Real.sin Real.cos (2 * Real.pi) sampleRate o) (n + 1)).u0 i
          = _ := p4 i
      rw [e, hu1 i]
      congr 1
      push_cast
      ring

/-- The sample returned by call number `n + 1` of `process` after `setup`, in exact real
arithmetic. -/
theorem nthOutput_setup (sampleRate : ℝ) (o : BiquadOscN ℝ size) (n : ℕ) :
    nthOutput (setup Real.sin Real.cos (2 * Real.pi) sampleRate o) (n + 1) =
      (∑ i, o.gain i *
        Real.sin (((n + 1 : ℕ) : ℝ) * (2 * Real.pi * o.frequency i / sampleRate))) /
          (size : ℝ) := by
  obtain ⟨g, _, _, _⟩ := afterProcess_setup sampleRate o n
  obtain ⟨_, _, hu1, _⟩ := afterProcess_setup sampleRate o (n + 1)
  obtain ⟨_, _, _, _, p5, p6⟩ :=
    process_loop (afterProcess (setup Real.sin Real.cos (2 * Real.pi) sampleRate o) n)
  show (forLoop size processBody
    (afterProcess (setup Real.sin Real.cos (2 * Real.pi) sampleRate o) n, (0 : ℝ))).2 /
      (size : ℝ) = _
  rw [p6]
  congr 1
  apply Finset.sum_congr rfl
  intro i _
  rw [← p5 i, g]
  congr 1
  exact hu1 i

/-- A gain-weighted sum of sines is bounded by the sum of the gains when these are
non-negative. -/
theorem abs_sum_gain_sin_le (g θ : Fin size → ℝ) (hg : ∀ i, 0 ≤ g i) :
    |∑ i, g i * Real.sin (θ i)| ≤ ∑ i, g i := by
  calc |∑ i, g i * Real.sin (θ i)| ≤ ∑ i, |g i * Real.sin (θ i)| :=
        Finset.abs_sum_le_sum_abs _ _
    _ ≤ ∑ i, g i := by
        apply Finset.sum_le_sum
        intro i _
        rw [abs_mul, abs_of_nonneg (hg i)]
        exact mul_le_of_le_one_right (hg i) (Real.abs_sin_le_one _)

/-- C1. `BiquadOscN::process` performs exactly one recurrence step per partial and returns
the mean: with `out i = k[i] * u1[i] - u0[i]` computed from the old registers, the new
object has `u0[i] = old u1[i]` and `u1[i] = out i` for every partial `i`, the arrays
`frequency`, `gain` and `k` are untouched, and the returned sample is
`(∑ i, gain[i] * out i) / size`. -/
theorem process_one_step_and_mean [Field α] (o : BiquadOscN α size) :
    (∀ i, (process o).1.u0 i = o.u1 i) ∧
      (∀ i, (process o).1.u1 i = o.k i * o.u1 i - o.u0 i) ∧
      (process o).1.frequency = o.frequency ∧ (process o).1.gain = o.gain ∧
      (process o).1.k = o.k ∧
      (process o).2 = (∑ i, o.gain i * (o.k i * o.u1 i - o.u0 i)) / (size : α) := by
  obtain ⟨h1, h2, h3, h4, h5, h6⟩ := process_loop o
  refine ⟨h4, h5, h1, h2, h3, ?_⟩
  show (forLoop size processBody (o, (0 : α))).2 / (size : α) = _
  rw [h6]

/-- C2. `BiquadOscN::setup(sampleRate)` sets, for every partial `i` and with
`ω_i = 2 π frequency[i] / sampleRate`, `k[i] = 2 cos ω_i`, `u0[i] = -sin ω_i` and
`u1[i] = 0`, whatever the registers held before the call (`sin`, `cos` are the real
functions and `twopi` is `2 π`); `frequency` and `gain` are not written. -/
theorem setup_coefficients_and_registers (sampleRate : ℝ) (o : BiquadOscN ℝ size) :
    (∀ i, (setup Real.sin Real.cos (2 * Real.pi) sampleRate o).k i =
        2 * Real.cos (2 * Real.pi * o.frequency i / sampleRate)) ∧
      (∀ i, (setup Real.sin Real.cos (2 * Real.pi) sampleRate o).u0 i =
        -Real.sin (2 * Real.pi * o.frequency i / sampleRate)) ∧
      (∀ i, (setup Real.sin Real.cos (2 * Real.pi) sampleRate o).u1 i = 0) ∧
      (setup Real.sin Real.cos (2 * Real.pi) sampleRate o).frequency = o.frequency ∧
      (setup Real.sin Real.cos (2 * Real.pi) sampleRate o).gain = o.gain := by
  have h := setup_foldl Real.sin Real.cos (2 * Real.pi) sampleRate (List.finRange size)
    { o with u1 := fun _ => 0 }
  simp only [List.mem_finRange, if_true] at h
  obtain ⟨h1, h2, h3, h4, h5⟩ := h
  exact ⟨h5, h4, fun i => congrFun h3 i, h1, h2⟩

/-- C3. Over exact real arithmetic the recurrence equals the direct sine: after
`setup(sampleRate)` with `sampleRate > 0`, for every `n ≥ 1` the `n`-th call of `process`
returns `(1 / size) * ∑ i, gain[i] * sin (n * 2 π frequency[i] / sampleRate)`; the register
`u1[i]` then holds `sin (n * 2 π frequency[i] / sampleRate)`, and this sinusoid, as a function
of the (real) sample index, has period `sampleRate / frequency[i]` for every partial with a
non-zero frequency. -/
theorem process_after_setup_eq_sine (sampleRate : ℝ) (hsr : 0 < sampleRate)
    (o : BiquadOscN ℝ size) (n : ℕ) (hn : 1 ≤ n) :
    nthOutput (setup Real.sin Real.cos (2 * Real.pi) sampleRate o) n =
        (1 / (size : ℝ)) *
          ∑ i, o.gain i * Real.sin ((n : ℝ) * (2 * Real.pi * o.frequency i / sampleRate)) ∧
      (∀ i, (afterProcess (setup Real.sin Real.cos (2 * Real.pi) sampleRate o) n).u1 i =
        Real.sin ((n : ℝ) * (2 * Real.pi * o.frequency i / sampleRate))) ∧
      (∀ i, o.frequency i ≠ 0 →
        Function.Periodic
          (fun t : ℝ => Real.sin (t * (2 * Real.pi * o.frequency i / sampleRate)))
          (sampleRate / o.frequency i)) := by
  refine ⟨?_, (afterProcess_setup sampleRate o n).2.2.1, fun i hf t => ?_⟩
  · obtain ⟨m, rfl⟩ : ∃ m, n = m + 1 := ⟨n - 1, by omega⟩
    rw [nthOutput_setup, one_div, inv_mul_eq_div]
  · have e : (t + sampleRate / o.frequency i) * (2 * Real.pi * o.frequency i / sampleRate) =
        t * (2 * Real.pi * o.frequency i / sampleRate) + 2 * Real.pi := by
      have hs : sampleRate ≠ 0 := hsr.ne.symm
      field_simp
      ring
    show Real.sin ((t + sampleRate / o.frequency i) *
      (2 * Real.pi * o.frequency i / sampleRate)) = _
    rw [e, Real.sin_add_two_pi]

/-- Witness for C3: one partial of frequency `1` and gain `1` at sample rate `4`, first
call of `process`. -/
theorem process_after_setup_eq_sine_witness :
    (0 : ℝ) < 4 ∧ 1 ≤ 1 ∧
      nthOutput (setup Real.sin Real.cos (2 * Real.pi) 4
        ({ frequency := fun _ => 1, gain := fun _ => 1, u1 := fun _ => 7, u0 := fun _ => 7,
           k := fun _ => 7 } : BiquadOscN ℝ 1)) 1 =
        (1 / ((1 : ℕ) : ℝ)) * ∑ _i : Fin 1, (1 : ℝ) * Real.sin (((1 : ℕ) : ℝ) *
          (2 * Real.pi * 1 / 4)) :=
  ⟨by norm_num, le_refl 1,
    (process_after_setup_eq_sine 4 (by norm_num)
      ({ frequency := fun _ => 1, gain := fun _ => 1, u1 := fun _ => 7, u0 := fun _ => 7,
         k := fun _ => 7 } : BiquadOscN ℝ 1) 1 (le_refl 1)).1⟩

/-- C4. Over exact real arithmetic, for every sample rate, all partial frequencies `f` with
`0 < f < sampleRate / 2` and non-negative gains, every sample returned by `process` after
`setup` has absolute value at most the sum of the gains. -/
theorem process_after_setup_bounded (sampleRate : ℝ) (o : BiquadOscN ℝ size)
    (hf : ∀ i, 0 < o.frequency i ∧ o.frequency i < sampleRate / 2)
    (hg : ∀ i, 0 ≤ o.gain i) (n : ℕ) (hn : 1 ≤ n) :
    |nthOutput (setup Real.sin Real.cos (2 * Real.pi) sampleRate o) n| ≤ ∑ i, o.gain i := by
  obtain ⟨m, rfl⟩ : ∃ m, n = m + 1 := ⟨n - 1, by omega⟩
  rw [nthOutput_setup, abs_div]
  have h1 := abs_sum_gain_sin_le o.gain
    (fun i => ((m + 1 : ℕ) : ℝ) * (2 * Real.pi * o.frequency i / sampleRate)) hg
  have h0 : (0 : ℝ) ≤ ∑ i, o.gain i := Finset.sum_nonneg fun i _ => hg i
  rcases Nat.eq_zero_or_pos size with hs | hs
  · subst hs
    simp
  · have hsz : (1 : ℝ) ≤ |(size : ℝ)| := by
      rw [Nat.abs_cast]
      exact_mod_cast hs
    exact (div_le_self (abs_nonneg _) hsz).trans h1

/-- Witness for C4: two partials of frequencies `100` and `200` with gains `1` and `2` at
sample rate `1000`, third call of `process`. -/
theorem process_after_setup_bounded_witness :
    (∀ i : Fin 2, 0 < (![100, 200] : Fin 2 → ℝ) i ∧ (![100, 200] : Fin 2 → ℝ) i < 1000 / 2) ∧
      (∀ i : Fin 2, 0 ≤ (![1, 2] : Fin 2 → ℝ) i) ∧ 1 ≤ 3 ∧
      |nthOutput (setup Real.sin Real.cos (2 * Real.pi) 1000
        ({ frequency := ![100, 200], gain := ![1, 2], u1 := ![0, 0], u0 := ![0, 0],
           k := ![0, 0] } : BiquadOscN ℝ 2)) 3| ≤ ∑ i : Fin 2, (![1, 2] : Fin 2 → ℝ) i :=
  ⟨by intro i; fin_cases i <;> norm_num, by intro i; fin_cases i <;> norm_num, by norm_num,
    process_after_setup_bounded 1000
      ({ frequency := ![100, 200], gain := ![1, 2], u1 := ![0, 0], u0 := ![0, 0],
         k := ![0, 0] } : BiquadOscN ℝ 2)
      (by intro i; fin_cases i <;> norm_num) (by intro i; fin_cases i <;> norm_num) 3
      (by norm_num)⟩

end BiquadOscN

end SomeDSP

namespace DISTRHO

namespace SyncSawSynth

/-- What `std::find_if` followed by `erase` does to a vector, when the search succeeds: the
vector splits around the first element satisfying `p`, nothing before it satisfies `p`, and
erasing at the found index leaves the two sides, in order. -/
theorem findIdx_split {β : Type*} (p : β → Bool) (l : List β) (h : l.findIdx p < l.length) :
    ∃ pre post, l = pre ++ l.get ⟨l.findIdx p, h⟩ :: post ∧ (∀ x ∈ pre, p x = false) ∧
      p (l.get ⟨l.findIdx p, h⟩) = true ∧ l.eraseIdx (l.findIdx p) = pre ++ post := by
  refine ⟨l.take (l.findIdx p), l.drop (l.findIdx p + 1), ?_, ?_, ?_, ?_⟩
  · rw [List.get_eq_getElem, ← List.drop_eq_getElem_cons h, List.take_append_drop]
  · intro x hx
    obtain ⟨i, hi, rfl⟩ := List.mem_take_iff_getElem.mp hx
    exact List.not_of_lt_findIdx (lt_of_lt_of_le hi (min_le_left _ _))
  · rw [List.get_eq_getElem]
    exact List.findIdx_getElem
  · exact List.eraseIdx_eq_take_drop_succ l _

/-- The search of the note-off branch fails exactly when no held pair has the note
number. -/
theorem not_findIdx_lt_iff (l : List (ℕ × ℕ)) (note : ℕ) :
    ¬ l.findIdx (fun p => p.1 == note) < l.length ↔ ∀ p ∈ l, p.1 ≠ note := by
  rw [List.findIdx_lt_length]
  constructor
  · intro h p hp hpe
    exact h ⟨p, hp, beq_iff_eq.mpr hpe⟩
  · rintro h ⟨p, hp, hpe⟩
    exact h p hp (beq_iff_eq.mp hpe)

/-- A three-byte message whose status byte has high nibble `0x80` is handled by the
note-off branch. -/
theorem handleMidi_eq_noteOffCase (s : SyncSawSynth) (ev : MidiEvent) (hsize : ev.size = 3)
    (hst : ev.data 0 &&& 0xf0 = 0x80) : handleMidi s ev = noteOffCase s ev := by
  simp [handleMidi, hsize, hst]

/-- A three-byte message whose status byte has high nibble `0x90` is handled by the
note-on branch. -/
theorem handleMidi_eq_noteOnCase (s : SyncSawSynth) (ev : MidiEvent) (hsize : ev.size = 3)
    (hst : ev.data 0 &&& 0xf0 = 0x90) : handleMidi s ev = noteOnCase s ev := by
  simp [handleMidi, hsize, hst]

/-- The note-off branch does nothing when no held pair has the note number. -/
theorem noteOffCase_unmatched (s : SyncSawSynth) (ev : MidiEvent)
    (hno : ∀ p ∈ s.lastNoteId, p.1 ≠ ev.data 1) : noteOffCase s ev = s := by
  have hnf := (not_findIdx_lt_iff s.lastNoteId (ev.data 1)).mpr hno
  simp only [noteOffCase, hnf, dite_false]

/-- The note-off branch makes one call on `dsp` when some held pair has the note number. -/
theorem noteOffCase_matched_length (s : SyncSawSynth) (ev : MidiEvent)
    (hheld : ∃ p ∈ s.lastNoteId, p.1 = ev.data 1) :
    (noteOffCase s ev).dsp.length = s.dsp.length + 1 := by
  have hlt : s.lastNoteId.findIdx (fun p => p.1 == ev.data 1) < s.lastNoteId.length := by
    by_contra hc
    obtain ⟨p, hp, hpe⟩ := hheld
    exact (not_findIdx_lt_iff _ _).mp hc p hp hpe
  simp only [noteOffCase, hlt, dite_true, List.length_append, List.length_singleton]

/-- The freshly constructed plugin after the note-on `0x90 60 100`: `dsp.noteOn` was called
with id `0`, key `60` is held under id `0` and the counter is `1`. -/
theorem handleMidi_init_noteOn :
    handleMidi init (midi3 0x90 60 100) =
      { dsp := [DspCall.noteOn 0 60 0 (100 / 127)], wasPlaying := false, noteId := 1,
        lastNoteId := [(60, 0)], alreadyRecievedNote := [60] } := by
  rw [handleMidi_eq_noteOnCase init (midi3 0x90 60 100) rfl (by decide)]
  simp [noteOnCase, init, midi3, INT8_MAX, UINT32_SIZE]

/-- C5. For a three-byte note-on event (status high nibble `0x90`, velocity `> 0`) whose note
number is not in the per-block de-duplication set, `handleMidi` calls `dsp.noteOn` exactly
once with some id, appends the pair (note number, that same id) at the end of `lastNoteId`,
appends the note number to `alreadyRecievedNote` and increases the `noteId` counter by
exactly `1`, however many notes are held.  The counter is a `uint32_t` that is assumed not to
overflow: `noteId + 1 < 2 ^ 32`. -/
theorem handleMidi_noteOn_accepted (s : SyncSawSynth) (ev : MidiEvent) (hsize : ev.size = 3)
    (hst : ev.data 0 &&& 0xf0 = 0x90) (hvel : 0 < ev.data 2)
    (hnew : ev.data 1 ∉ s.alreadyRecievedNote) (hctr : s.noteId + 1 < UINT32_SIZE) :
    ∃ id : ℕ,
      (handleMidi s ev).dsp =
          s.dsp ++ [DspCall.noteOn id (ev.data 1) 0 ((ev.data 2 : ℚ) / 127)] ∧
        (handleMidi s ev).lastNoteId = s.lastNoteId ++ [(ev.data 1, id)] ∧
        (handleMidi s ev).alreadyRecievedNote = s.alreadyRecievedNote ++ [ev.data 1] ∧
        (handleMidi s ev).noteId = s.noteId + 1 ∧
        (handleMidi s ev).wasPlaying = s.wasPlaying := by
  refine ⟨s.noteId, ?_⟩
  rw [handleMidi_eq_noteOnCase s ev hsize hst]
  have hany : s.alreadyRecievedNote.any (fun noteNo => noteNo == ev.data 1) = false := by
    rw [Bool.eq_false_iff]
    intro h
    obtain ⟨x, hx, hxe⟩ := List.any_eq_true.mp h
    exact hnew ((beq_iff_eq.mp hxe) ▸ hx)
  simp [noteOnCase, hvel, hany, INT8_MAX, Nat.mod_eq_of_lt hctr]

/-- Witness for C5: the note-on `0x90 60 100` on the freshly constructed plugin. -/
theorem handleMidi_noteOn_accepted_witness :
    ∃ id : ℕ,
      (handleMidi init (midi3 0x90 60 100)).dsp =
          init.dsp ++ [DspCall.noteOn id ((midi3 0x90 60 100).data 1) 0
            ((((midi3 0x90 60 100).data 2 : ℕ) : ℚ) / 127)] ∧
        (handleMidi init (midi3 0x90 60 100)).lastNoteId =
          init.lastNoteId ++ [((midi3 0x90 60 100).data 1, id)] ∧
        (handleMidi init (midi3 0x90 60 100)).alreadyRecievedNote =
          init.alreadyRecievedNote ++ [(midi3 0x90 60 100).data 1] ∧
        (handleMidi init (midi3 0x90 60 100)).noteId = init.noteId + 1 ∧
        (handleMidi init (midi3 0x90 60 100)).wasPlaying = init.wasPlaying :=
  handleMidi_noteOn_accepted init (midi3 0x90 60 100) rfl (by decide) (by decide)
    (by simp [init]) (by decide)

/-- C6, as the code has it.  On an accepted note-on the id passed to `dsp.noteOn` and
recorded in `lastNoteId` is the value the counter had before the event (the counter is
incremented after use), and the counter afterwards is that id plus `1`, modulo `2 ^ 32`. -/
theorem handleMidi_noteOn_id_is_old_counter (s : SyncSawSynth) (ev : MidiEvent)
    (hsize : ev.size = 3) (hst : ev.data 0 &&& 0xf0 = 0x90) (hvel : 0 < ev.data 2)
    (hnew : ev.data 1 ∉ s.alreadyRecievedNote) :
    (handleMidi s ev).dsp =
        s.dsp ++ [DspCall.noteOn s.noteId (ev.data 1) 0 ((ev.data 2 : ℚ) / 127)] ∧
      (handleMidi s ev).lastNoteId = s.lastNoteId ++ [(ev.data 1, s.noteId)] ∧
      (handleMidi s ev).noteId = (s.noteId + 1) % UINT32_SIZE := by
  rw [handleMidi_eq_noteOnCase s ev hsize hst]
  have hany : s.alreadyRecievedNote.any (fun noteNo => noteNo == ev.data 1) = false := by
    rw [Bool.eq_false_iff]
    intro h
    obtain ⟨x, hx, hxe⟩ := List.any_eq_true.mp h
    exact hnew ((beq_iff_eq.mp hxe) ▸ hx)
  simp [noteOnCase, hvel, hany, INT8_MAX]

/-- Witness for C6 as the code has it: a second key pressed while the counter is `1`. -/
theorem handleMidi_noteOn_id_is_old_counter_witness :
    (handleMidi (handleMidi init (midi3 0x90 60 100)) (midi3 0x90 64 100)).dsp =
        (handleMidi init (midi3 0x90 60 100)).dsp ++
          [DspCall.noteOn (handleMidi init (midi3 0x90 60 100)).noteId
            ((midi3 0x90 64 100).data 1) 0 ((((midi3 0x90 64 100).data 2 : ℕ) : ℚ) / 127)] ∧
      (handleMidi (handleMidi init (midi3 0x90 60 100)) (midi3 0x90 64 100)).lastNoteId =
        (handleMidi init (midi3 0x90 60 100)).lastNoteId ++
          [((midi3 0x90 64 100).data 1, (handleMidi init (midi3 0x90 60 100)).noteId)] ∧
      (handleMidi (handleMidi init (midi3 0x90 60 100)) (midi3 0x90 64 100)).noteId =
        ((handleMidi init (midi3 0x90 60 100)).noteId + 1) % UINT32_SIZE :=
  handleMidi_noteOn_id_is_old_counter (handleMidi init (midi3 0x90 60 100))
    (midi3 0x90 64 100) rfl (by decide) (by decide) (by decide)

/-- C6 as stated fails.  On the freshly constructed plugin (counter `0`) the note-on
`0x90 60 100` is accepted and the counter becomes `1`, but the id passed to `dsp.noteOn` and
recorded in `lastNoteId` is `0`, the old counter value, not the old value plus `1`. -/
theorem handleMidi_noteOn_preincrement_counterexample :
    init.noteId = 0 ∧ (handleMidi init (midi3 0x90 60 100)).noteId = 1 ∧
      (handleMidi init (midi3 0x90 60 100)).dsp = [DspCall.noteOn 0 60 0 (100 / 127)] ∧
      (handleMidi init (midi3 0x90 60 100)).lastNoteId = [(60, 0)] ∧
      ¬ (∃ velocity, (handleMidi init (midi3 0x90 60 100)).dsp =
          init.dsp ++ [DspCall.noteOn (init.noteId + 1) 60 0 velocity]) ∧
      ¬ ((handleMidi init (midi3 0x90 60 100)).lastNoteId =
          init.lastNoteId ++ [(60, init.noteId + 1)]) := by
  have h := handleMidi_eq_noteOnCase init (midi3 0x90 60 100) rfl (by decide)
  have hd : (handleMidi init (midi3 0x90 60 100)).dsp = [DspCall.noteOn 0 60 0 (100 / 127)] := by
    rw [h]; simp [noteOnCase, init, midi3, INT8_MAX]
  have hl : (handleMidi init (midi3 0x90 60 100)).lastNoteId = [(60, 0)] := by
    rw [h]; simp [noteOnCase, init, midi3]
  refine ⟨rfl, ?_, hd, hl, ?_, ?_⟩
  · rw [h]; simp [noteOnCase, init, midi3, UINT32_SIZE]
  · rintro ⟨v, hv⟩
    rw [hd] at hv
    simp [init] at hv
  · rw [hl]
    simp [init]

/-- C7. A note-on event (status high nibble `0x90`, velocity `> 0`) whose note number was
already accepted earlier in the current block, i.e. is in `alreadyRecievedNote`, is ignored:
`handleMidi` returns the object unchanged, so `noteId`, `lastNoteId` and
`alreadyRecievedNote` are unchanged and no call is made on `dsp`. -/
theorem handleMidi_noteOn_duplicate (s : SyncSawSynth) (ev : MidiEvent) (hsize : ev.size = 3)
    (hst : ev.data 0 &&& 0xf0 = 0x90) (hvel : 0 < ev.data 2)
    (hdup : ev.data 1 ∈ s.alreadyRecievedNote) :
    handleMidi s ev = s := by
  rw [handleMidi_eq_noteOnCase s ev hsize hst]
  have hany : s.alreadyRecievedNote.any (fun noteNo => noteNo == ev.data 1) = true :=
    List.any_eq_true.mpr ⟨ev.data 1, hdup, beq_self_eq_true _⟩
  simp [noteOnCase, hvel, hany]

/-- Witness for C7: the same key sent twice in a block. -/
theorem handleMidi_noteOn_duplicate_witness :
    handleMidi (handleMidi init (midi3 0x90 60 100)) (midi3 0x90 60 90) =
      handleMidi init (midi3 0x90 60 100) :=
  handleMidi_noteOn_duplicate (handleMidi init (midi3 0x90 60 100)) (midi3 0x90 60 90) rfl
    (by decide) (by decide) (by decide)

/-- C8. For a three-byte note-off event (status high nibble `0x80`) whose note number
occurs in `lastNoteId`, `handleMidi` calls `dsp.noteOff` exactly once, with the id of the
first (oldest) entry having that note number, and removes exactly that entry: `lastNoteId`
was `pre ++ (note, id) :: post` with no entry of `pre` having the note number, and becomes
`pre ++ post`.  The `noteId` counter, `alreadyRecievedNote` and `wasPlaying` are
unchanged. -/
theorem handleMidi_noteOff_first_match (s : SyncSawSynth) (ev : MidiEvent)
    (hsize : ev.size = 3) (hst : ev.data 0 &&& 0xf0 = 0x80)
    (hheld : ∃ p ∈ s.lastNoteId, p.1 = ev.data 1) :
    ∃ (pre : List (ℕ × ℕ)) (id : ℕ) (post : List (ℕ × ℕ)),
      s.lastNoteId = pre ++ (ev.data 1, id) :: post ∧
        (∀ p ∈ pre, p.1 ≠ ev.data 1) ∧
        (handleMidi s ev).dsp = s.dsp ++ [DspCall.noteOff id] ∧
        (handleMidi s ev).lastNoteId = pre ++ post ∧
        (handleMidi s ev).noteId = s.noteId ∧
        (handleMidi s ev).alreadyRecievedNote = s.alreadyRecievedNote ∧
        (handleMidi s ev).wasPlaying = s.wasPlaying := by
  have hlt : s.lastNoteId.findIdx (fun p => p.1 == ev.data 1) < s.lastNoteId.length := by
    by_contra hc
    obtain ⟨p, hp, hpe⟩ := hheld
    exact (not_findIdx_lt_iff _ _).mp hc p hp hpe
  obtain ⟨pre, post, hsplit, hpre, hfound, herase⟩ :=
    findIdx_split (fun p : ℕ × ℕ => p.1 == ev.data 1) s.lastNoteId hlt
  have hfst : (s.lastNoteId.get
      ⟨s.lastNoteId.findIdx (fun p => p.1 == ev.data 1), hlt⟩).1 = ev.data 1 :=
    beq_iff_eq.mp hfound
  refine ⟨pre, (s.lastNoteId.get
      ⟨s.lastNoteId.findIdx (fun p => p.1 == ev.data 1), hlt⟩).2, post, ?_, ?_, ?_, ?_, ?_, ?_, ?_⟩
  · have hpair : (ev.data 1, (s.lastNoteId.get
        ⟨s.lastNoteId.findIdx (fun p => p.1 == ev.data 1), hlt⟩).2) =
        s.lastNoteId.get ⟨s.lastNoteId.findIdx (fun p => p.1 == ev.data 1), hlt⟩ :=
      Prod.ext hfst.symm rfl
    rw [hpair]
    exact hsplit
  · intro p hp hpe
    have := hpre p hp
    rw [beq_eq_false_iff_ne] at this
    exact this hpe
  all_goals rw [handleMidi_eq_noteOffCase s ev hsize hst]
  all_goals simp only [noteOffCase, hlt, dite_true]
  exact herase

/-- Witness for C8: keys `60`, `64`, `60` are held (ids `0`, `1`, `2`) and a note-off for
`60` arrives. -/
theorem handleMidi_noteOff_first_match_witness :
    ∃ (pre : List (ℕ × ℕ)) (id : ℕ) (post : List (ℕ × ℕ)),
      ({ init with lastNoteId := [(60, 0), (64, 1), (60, 2)], noteId := 3 } :
          SyncSawSynth).lastNoteId = pre ++ ((midi3 0x80 60 0).data 1, id) :: post ∧
        (∀ p ∈ pre, p.1 ≠ (midi3 0x80 60 0).data 1) ∧
        (handleMidi { init with lastNoteId := [(60, 0), (64, 1), (60, 2)], noteId := 3 }
          (midi3 0x80 60 0)).dsp =
          ({ init with lastNoteId := [(60, 0), (64, 1), (60, 2)], noteId := 3 } :
            SyncSawSynth).dsp ++ [DspCall.noteOff id] ∧
        (handleMidi { init with lastNoteId := [(60, 0), (64, 1), (60, 2)], noteId := 3 }
          (midi3 0x80 60 0)).lastNoteId = pre ++ post ∧
        (handleMidi { init with lastNoteId := [(60, 0), (64, 1), (60, 2)], noteId := 3 }
          (midi3 0x80 60 0)).noteId =
          ({ init with lastNoteId := [(60, 0), (64, 1), (60, 2)], noteId := 3 } :
            SyncSawSynth).noteId ∧
        (handleMidi { init with lastNoteId := [(60, 0), (64, 1), (60, 2)], noteId := 3 }
          (midi3 0x80 60 0)).alreadyRecievedNote =
          ({ init with lastNoteId := [(60, 0), (64, 1), (60, 2)], noteId := 3 } :
            SyncSawSynth).alreadyRecievedNote ∧
        (handleMidi { init with lastNoteId := [(60, 0), (64, 1), (60, 2)], noteId := 3 }
          (midi3 0x80 60 0)).wasPlaying =
          ({ init with lastNoteId := [(60, 0), (64, 1), (60, 2)], noteId := 3 } :
            SyncSawSynth).wasPlaying :=
  handleMidi_noteOff_first_match
    { init with lastNoteId := [(60, 0), (64, 1), (60, 2)], noteId := 3 } (midi3 0x80 60 0)
    rfl (by decide) ⟨(60, 0), by decide, rfl⟩

/-- C9, as the code has it.  A three-byte event with status high nibble `0x90` and velocity
`0` is ignored: for every dispatcher state and note number `handleMidi` returns the object
unchanged, so nothing is removed from `lastNoteId` and no call is made on `dsp`.  Hence it
agrees with the note-off (status high nibble `0x80`) for the same note number exactly when
that note number has no entry in `lastNoteId`. -/
theorem handleMidi_noteOn_velocity_zero_ignored (s : SyncSawSynth) (ev : MidiEvent)
    (hsize : ev.size = 3) (hst : ev.data 0 &&& 0xf0 = 0x90) (hvel : ev.data 2 = 0) :
    handleMidi s ev = s ∧
      ∀ off : MidiEvent, off.size = 3 → off.data 0 &&& 0xf0 = 0x80 → off.data 1 = ev.data 1 →
        (handleMidi s off = handleMidi s ev ↔ ∀ p ∈ s.lastNoteId, p.1 ≠ ev.data 1) := by
  have hign : handleMidi s ev = s := by
    rw [handleMidi_eq_noteOnCase s ev hsize hst]
    simp [noteOnCase, hvel]
  refine ⟨hign, fun off hosize host hnote => ?_⟩
  rw [hign, handleMidi_eq_noteOffCase s off hosize host, ← hnote]
  constructor
  · intro heq p hp hpe
    have hlen := noteOffCase_matched_length s off ⟨p, hp, hpe⟩
    rw [heq] at hlen
    omega
  · exact noteOffCase_unmatched s off

/-- Witness for C9 as the code has it: key `60` is held and `0x90 60 0` arrives. -/
theorem handleMidi_noteOn_velocity_zero_ignored_witness :
    handleMidi (handleMidi init (midi3 0x90 60 100)) (midi3 0x90 60 0) =
      handleMidi init (midi3 0x90 60 100) :=
  (handleMidi_noteOn_velocity_zero_ignored (handleMidi init (midi3 0x90 60 100))
    (midi3 0x90 60 0) rfl (by decide) rfl).1

/-- C9 as stated fails.  With key `60` held under id `0` (the state after the note-on
`0x90 60 100` on the freshly constructed plugin), the event `0x90 60 0` makes no call on
`dsp` and leaves the entry in `lastNoteId`, while the note-off `0x80 60 0` calls
`dsp.noteOff(0)` and empties `lastNoteId`. -/
theorem handleMidi_velocity_zero_counterexample :
    (handleMidi init (midi3 0x90 60 100)).dsp = [DspCall.noteOn 0 60 0 (100 / 127)] ∧
      (handleMidi init (midi3 0x90 60 100)).lastNoteId = [(60, 0)] ∧
      (handleMidi (handleMidi init (midi3 0x90 60 100)) (midi3 0x90 60 0)).dsp =
        [DspCall.noteOn 0 60 0 (100 / 127)] ∧
      (handleMidi (handleMidi init (midi3 0x90 60 100)) (midi3 0x90 60 0)).lastNoteId =
        [(60, 0)] ∧
      (handleMidi (handleMidi init (midi3 0x90 60 100)) (midi3 0x80 60 0)).dsp =
        [DspCall.noteOn 0 60 0 (100 / 127), DspCall.noteOff 0] ∧
      (handleMidi (handleMidi init (midi3 0x90 60 100)) (midi3 0x80 60 0)).lastNoteId = [] ∧
      handleMidi (handleMidi init (midi3 0x90 60 100)) (midi3 0x90 60 0) ≠
        handleMidi (handleMidi init (midi3 0x90 60 100)) (midi3 0x80 60 0) := by
  have h1 := handleMidi_init_noteOn
  have hd : (handleMidi init (midi3 0x90 60 100)).dsp = [DspCall.noteOn 0 60 0 (100 / 127)] := by
    rw [h1]
  have hl : (handleMidi init (midi3 0x90 60 100)).lastNoteId = [(60, 0)] := by
    rw [h1]
  have h2 : handleMidi (handleMidi init (midi3 0x90 60 100)) (midi3 0x90 60 0) =
      handleMidi init (midi3 0x90 60 100) := by
    rw [handleMidi_eq_noteOnCase _ (midi3 0x90 60 0) rfl (by decide)]
    simp [noteOnCase, midi3]
  have h3 := handleMidi_eq_noteOffCase (handleMidi init (midi3 0x90 60 100))
    (midi3 0x80 60 0) rfl (by decide)
  have hd3 : (handleMidi (handleMidi init (midi3 0x90 60 100)) (midi3 0x80 60 0)).dsp =
      [DspCall.noteOn 0 60 0 (100 / 127), DspCall.noteOff 0] := by
    rw [h3, h1]; simp [noteOffCase, midi3, List.findIdx_cons]
  have hl3 : (handleMidi (handleMidi init (midi3 0x90 60 100)) (midi3 0x80 60 0)).lastNoteId =
      [] := by
    rw [h3, h1]; simp [noteOffCase, midi3, List.findIdx_cons]
  refine ⟨hd, hl, ?_, ?_, hd3, hl3, ?_⟩
  · rw [h2, hd]
  · rw [h2, hl]
  · intro hc
    have := congrArg SyncSawSynth.lastNoteId hc
    rw [h2, hl, hl3] at this
    simp at this

/-- C10. A note-off (status high nibble `0x80`) for a note number that has no entry in
`lastNoteId` is a no-op: `handleMidi` returns the object unchanged, so `noteId`,
`lastNoteId` and `alreadyRecievedNote` are unchanged and no call is made on `dsp`. -/
theorem handleMidi_noteOff_unmatched (s : SyncSawSynth) (ev : MidiEvent) (hsize : ev.size = 3)
    (hst : ev.data 0 &&& 0xf0 = 0x80) (hno : ∀ p ∈ s.lastNoteId, p.1 ≠ ev.data 1) :
    handleMidi s ev = s := by
  rw [handleMidi_eq_noteOffCase s ev hsize hst]
  exact noteOffCase_unmatched s ev hno

/-- Witness for C10: key `60` is held and a note-off for key `61` arrives. -/
theorem handleMidi_noteOff_unmatched_witness :
    handleMidi (handleMidi init (midi3 0x90 60 100)) (midi3 0x80 61 0) =
      handleMidi init (midi3 0x90 60 100) :=
  handleMidi_noteOff_unmatched (handleMidi init (midi3 0x90 60 100)) (midi3 0x80 61 0) rfl
    (by decide) (by decide)

/-! ### Sequences of events and calls -/

/-- The four things `handleMidi` can do: nothing; accept a note-on; release the first held
pair at some index; forward a pitch bend. -/
theorem handleMidi_cases (s : SyncSawSynth) (ev : MidiEvent) :
    handleMidi s ev = s ∨
      (ev.size = 3 ∧ ev.data 0 &&& 0xf0 = 0x90 ∧ 0 < ev.data 2 ∧
        ev.data 1 ∉ s.alreadyRecievedNote ∧
        handleMidi s ev =
          { s with
            dsp := s.dsp ++
              [DspCall.noteOn s.noteId (ev.data 1) 0 ((ev.data 2 : ℚ) / (INT8_MAX : ℚ))]
            lastNoteId := s.lastNoteId ++ [(ev.data 1, s.noteId)]
            alreadyRecievedNote := s.alreadyRecievedNote ++ [ev.data 1]
            noteId := (s.noteId + 1) % UINT32_SIZE }) ∨
      (∃ (it : ℕ) (h : it < s.lastNoteId.length),
        handleMidi s ev =
          { s with
            dsp := s.dsp ++ [DspCall.noteOff (s.lastNoteId.get ⟨it, h⟩).2]
            lastNoteId := s.lastNoteId.eraseIdx it }) ∨
      handleMidi s ev = pitchBendCase s ev := by
  by_cases hsize : ev.size = 3
  · by_cases h80 : ev.data 0 &&& 0xf0 = 0x80
    · rw [handleMidi_eq_noteOffCase s ev hsize h80]
      by_cases hlt : s.lastNoteId.findIdx (fun p => p.1 == ev.data 1) < s.lastNoteId.length
      · right; right; left
        exact ⟨_, hlt, by simp only [noteOffCase, hlt, dite_true]⟩
      · left
        simp only [noteOffCase, hlt, dite_false]
    · by_cases h90 : ev.data 0 &&& 0xf0 = 0x90
      · rw [handleMidi_eq_noteOnCase s ev hsize h90]
        by_cases hvel : ev.data 2 > 0
        · by_cases hany : s.alreadyRecievedNote.any (fun noteNo => noteNo == ev.data 1) = true
          · left
            simp only [noteOnCase, hvel, hany, if_true]
          · right; left
            refine ⟨hsize, h90, hvel, ?_, ?_⟩
            · intro hmem
              exact hany (List.any_eq_true.mpr ⟨ev.data 1, hmem, beq_self_eq_true _⟩)
            · simp only [noteOnCase, hvel, hany, if_true]
              rfl
        · left
          simp only [noteOnCase, hvel, if_false]
      · by_cases he0 : ev.data 0 &&& 0xf0 = 0xe0
        · right; right; right
          simp [handleMidi, hsize, he0]
        · left
          simp [handleMidi, hsize, h80, h90, he0]
  · left
    simp [handleMidi, hsize]

/-- The freshly constructed plugin is consistent. -/
theorem consistent_init : Consistent init := by
  simp [Consistent, init, noteOnIds, noteOffCount]

/-- Calls on `dsp` other than `noteOn` and `noteOff`, and writes to `wasPlaying`, keep
the bookkeeping, as does emptying `alreadyRecievedNote`. -/
theorem consistent_of_same {s t : SyncSawSynth} (h : Consistent s)
    (hon : noteOnIds t.dsp = noteOnIds s.dsp) (hoff : noteOffCount t.dsp = noteOffCount s.dsp)
    (hid : t.noteId = s.noteId) (hl : t.lastNoteId = s.lastNoteId)
    (ha : t.alreadyRecievedNote = s.alreadyRecievedNote ∨ t.alreadyRecievedNote = []) :
    Consistent t := by
  obtain ⟨h1, h2, h3, h4, h5⟩ := h
  refine ⟨?_, ?_, ?_, ?_, ?_⟩
  · rw [hid, hon]; exact h1
  · rw [hon]; exact h2
  · rw [hl, hon]; exact h3
  · rw [hl, hoff, hon]; exact h4
  · rcases ha with ha | ha
    · rw [ha]; exact h5
    · rw [ha]; exact List.nodup_nil

/-- One `handleMidi` keeps the bookkeeping. -/
theorem consistent_handleMidi {s : SyncSawSynth} (h : Consistent s) (ev : MidiEvent) :
    Consistent (handleMidi s ev) := by
  rcases handleMidi_cases s ev with he | ⟨_, _, _, hnew, he⟩ | ⟨it, hit, he⟩ | he
  · rw [he]; exact h
  · obtain ⟨h1, h2, h3, h4, h5⟩ := h
    rw [he]
    have hids : noteOnIds (s.dsp ++
        [DspCall.noteOn s.noteId (ev.data 1) 0 ((ev.data 2 : ℚ) / (INT8_MAX : ℚ))]) =
        noteOnIds s.dsp ++ [s.noteId] := by
      simp [noteOnIds, List.filterMap_append, DspCall.noteOnId?]
    have hoff : noteOffCount (s.dsp ++
        [DspCall.noteOn s.noteId (ev.data 1) 0 ((ev.data 2 : ℚ) / (INT8_MAX : ℚ))]) =
        noteOffCount s.dsp := by
      simp [noteOffCount, List.countP_append, DspCall.isNoteOff]
    refine ⟨?_, ?_, ?_, ?_, ?_⟩
    · show (s.noteId + 1) % UINT32_SIZE = _
      rw [hids, List.length_append, List.length_singleton, h1, Nat.mod_add_mod]
    · show noteOnIds (s.dsp ++ _) = _
      rw [hids, List.length_append, List.length_singleton, List.range_succ, List.map_append,
        ← h2, List.map_singleton, ← h1]
    · show (List.map Prod.snd (s.lastNoteId ++ [(ev.data 1, s.noteId)])).Sublist
        (noteOnIds (s.dsp ++ _))
      rw [hids, List.map_append]
      exact List.Sublist.append h3 (List.Sublist.refl _)
    · show (s.lastNoteId ++ [(ev.data 1, s.noteId)]).length + noteOffCount (s.dsp ++ _) =
        (noteOnIds (s.dsp ++ _)).length
      rw [hids, hoff, List.length_append, List.length_append, List.length_singleton,
        List.length_singleton]
      omega
    · show (s.alreadyRecievedNote ++ [ev.data 1]).Nodup
      rw [List.nodup_append]
      refine ⟨h5, List.nodup_singleton _, ?_⟩
      intro x hx hx1
      rw [List.mem_singleton] at hx1
      exact hnew (hx1 ▸ hx)
  · obtain ⟨h1, h2, h3, h4, h5⟩ := h
    rw [he]
    have hids : noteOnIds (s.dsp ++ [DspCall.noteOff (s.lastNoteId.get ⟨it, hit⟩).2]) =
        noteOnIds s.dsp := by
      simp [noteOnIds, List.filterMap_append, DspCall.noteOnId?]
    have hoff : noteOffCount (s.dsp ++ [DspCall.noteOff (s.lastNoteId.get ⟨it, hit⟩).2]) =
        noteOffCount s.dsp + 1 := by
      simp [noteOffCount, List.countP_append, DspCall.isNoteOff]
    refine ⟨?_, ?_, ?_, ?_, h5⟩
    · show s.noteId = _
      rw [hids]; exact h1
    · show noteOnIds (s.dsp ++ _) = _
      rw [hids]; exact h2
    · show (List.map Prod.snd (s.lastNoteId.eraseIdx it)).Sublist (noteOnIds (s.dsp ++ _))
      rw [hids]
      exact ((List.eraseIdx_sublist s.lastNoteId it).map Prod.snd).trans h3
    · show (s.lastNoteId.eraseIdx it).length + noteOffCount (s.dsp ++ _) =
        (noteOnIds (s.dsp ++ _)).length
      rw [hids, hoff, List.length_eraseIdx, if_pos hit]
      omega
  · rw [he]
    refine consistent_of_same h ?_ ?_ rfl rfl (Or.inl rfl)
    · simp [pitchBendCase, noteOnIds, List.filterMap_append, DspCall.noteOnId?]
    · simp [pitchBendCase, noteOffCount, List.countP_append, DspCall.isNoteOff]

/-- The event loop of `run` keeps the bookkeeping. -/
theorem consistent_foldl_handleMidi (evs : List MidiEvent) {s : SyncSawSynth}
    (h : Consistent s) : Consistent (evs.foldl handleMidi s) := by
  induction evs generalizing s with
  | nil => exact h
  | cons ev evs ih => exact ih (consistent_handleMidi h ev)

/-- The code of `run` before the event loop touches neither the counter nor the two
vectors, and calls neither `dsp.noteOn` nor `dsp.noteOff`. -/
theorem runBegin_fields (s : SyncSawSynth) (inp : RunInput) :
    (runBegin s inp).noteId = s.noteId ∧ (runBegin s inp).lastNoteId = s.lastNoteId ∧
      (runBegin s inp).alreadyRecievedNote = s.alreadyRecievedNote ∧
      noteOnIds (runBegin s inp).dsp = noteOnIds s.dsp ∧
      noteOffCount (runBegin s inp).dsp = noteOffCount s.dsp := by
  unfold runBegin
  by_cases hp : (!s.wasPlaying && inp.playing) = true
  · simp [hp, noteOnIds, noteOffCount, List.filterMap_append, List.countP_append,
      DspCall.noteOnId?, DspCall.isNoteOff]
  · simp [hp, noteOnIds, noteOffCount]

/-- The method `run` keeps the bookkeeping. -/
theorem consistent_run {s : SyncSawSynth} (h : Consistent s) (inp : RunInput) :
    Consistent (run s inp) := by
  unfold run
  by_cases hnull : inp.outputsNull = true
  · simp only [hnull, if_true]; exact h
  · by_cases hby : inp.bypass = true
    · simp only [hnull, hby, if_true, if_false]; exact h
    · simp only [hnull, hby, if_false]
      obtain ⟨b1, b2, b3, b4, b5⟩ := runBegin_fields s inp
      have hb : Consistent (runBegin s inp) := consistent_of_same h b4 b5 b1 b2 (Or.inl b3)
      refine consistent_of_same (consistent_foldl_handleMidi inp.midiEvents hb) ?_ ?_ rfl rfl
        (Or.inr rfl)
      · simp [runEnd, noteOnIds, List.filterMap_append, DspCall.noteOnId?]
      · simp [runEnd, noteOffCount, List.countP_append, DspCall.isNoteOff]

/-- Every call keeps the bookkeeping. -/
theorem consistent_exec {s : SyncSawSynth} (h : Consistent s) (c : Call) :
    Consistent (exec s c) := by
  cases c with
  | run inp => exact consistent_run h inp
  | handleMidi ev => exact consistent_handleMidi h ev
  | activate =>
    refine consistent_of_same h ?_ ?_ rfl rfl (Or.inl rfl)
    · simp [exec, activate, noteOnIds, List.filterMap_append, DspCall.noteOnId?]
    · simp [exec, activate, noteOffCount, List.countP_append, DspCall.isNoteOff]
  | deactivate =>
    refine consistent_of_same h ?_ ?_ rfl rfl (Or.inl rfl)
    · simp [exec, deactivate, noteOnIds, List.filterMap_append, DspCall.noteOnId?]
    · simp [exec, deactivate, noteOffCount, List.countP_append, DspCall.isNoteOff]

/-- Every state reached from construction is consistent. -/
theorem consistent_execAll (calls : List Call) : Consistent (execAll init calls) := by
  have key : ∀ (cs : List Call) (s : SyncSawSynth), Consistent s → Consistent (execAll s cs) := by
    intro cs
    induction cs with
    | nil => intro s h; exact h
    | cons c cs ih => intro s h; exact ih (exec s c) (consistent_exec h c)
  exact key calls init consistent_init

/-- While fewer than `2 ^ 32` note-ons were accepted, the ids passed to `dsp.noteOn` are
`0, 1, …, n - 1` exactly and the counter is `n`. -/
theorem noteOnIds_eq_range {s : SyncSawSynth} (h : Consistent s)
    (hfew : (noteOnIds s.dsp).length < UINT32_SIZE) :
    noteOnIds s.dsp = List.range (noteOnIds s.dsp).length ∧
      s.noteId = (noteOnIds s.dsp).length := by
  obtain ⟨h1, h2, _, _, _⟩ := h
  constructor
  · have hmap : (List.range (noteOnIds s.dsp).length).map (fun i => i % UINT32_SIZE) =
        (List.range (noteOnIds s.dsp).length).map id := by
      apply List.map_congr_left
      intro i hi
      exact Nat.mod_eq_of_lt (lt_trans (List.mem_range.mp hi) hfew)
    rw [List.map_id] at hmap
    exact h2.trans hmap
  · rw [h1, Nat.mod_eq_of_lt hfew]

/-- C11. Note ids are unique and ascending.  For every sequence of calls (`run` with any
blocks of MIDI events, `handleMidi`, `activate`, `deactivate`) starting from construction,
with fewer than `2 ^ 32` accepted note-ons: the ids passed to `dsp.noteOn` are strictly
increasing in call order, hence pairwise distinct; the ids stored in `lastNoteId` are
strictly increasing along the list and all smaller than the current counter; and any two
`dsp.noteOn` calls for the same key, wherever they occur, got different ids, the earlier
call the smaller one. -/
theorem noteIds_unique_ascending (calls : List Call)
    (hfew : (noteOnIds (execAll init calls).dsp).length < UINT32_SIZE) :
    (noteOnIds (execAll init calls).dsp).Pairwise (fun a b => a < b) ∧
      (noteOnIds (execAll init calls).dsp).Nodup ∧
      ((execAll init calls).lastNoteId.map Prod.snd).Pairwise (fun a b => a < b) ∧
      (∀ p ∈ (execAll init calls).lastNoteId, p.2 < (execAll init calls).noteId) ∧
      (∀ (i j id₁ id₂ key : ℕ) (t₁ v₁ t₂ v₂ : ℚ), i < j →
        (execAll init calls).dsp[i]? = some (DspCall.noteOn id₁ key t₁ v₁) →
        (execAll init calls).dsp[j]? = some (DspCall.noteOn id₂ key t₂ v₂) → id₁ < id₂) := by
  have hc := consistent_execAll calls
  obtain ⟨hrange, hctr⟩ := noteOnIds_eq_range hc hfew
  obtain ⟨_, _, hsub, _, _⟩ := hc
  have hpw : (noteOnIds (execAll init calls).dsp).Pairwise (fun a b => a < b) := by
    rw [hrange]
    exact List.pairwise_lt_range _
  refine ⟨hpw, ?_, hpw.sublist hsub, ?_, ?_⟩
  · exact hpw.imp (fun hab => Nat.ne_of_lt hab)
  · intro p hp
    have hmem : p.2 ∈ noteOnIds (execAll init calls).dsp :=
      hsub.subset (List.mem_map_of_mem Prod.snd hp)
    rw [hrange] at hmem
    rw [hctr]
    exact List.mem_range.mp hmem
  · intro i j id₁ id₂ key t₁ v₁ t₂ v₂ hij h1 h2
    have hdsp := List.pairwise_filterMap.mp hpw
    obtain ⟨hi, e1⟩ := List.getElem?_eq_some.mp h1
    obtain ⟨hj, e2⟩ := List.getElem?_eq_some.mp h2
    have := List.pairwise_iff_getElem.mp hdsp i j hi hj hij
    rw [e1, e2] at this
    exact this id₁ rfl id₂ rfl

/-- Witness for C11: key `60` is pressed in one block and pressed again in the next
block. -/
theorem noteIds_unique_ascending_witness :
    (noteOnIds (execAll init [Call.run (block [midi3 0x90 60 100]),
        Call.run (block [midi3 0x90 60 100])]).dsp).length < UINT32_SIZE ∧
      (noteOnIds (execAll init [Call.run (block [midi3 0x90 60 100]),
        Call.run (block [midi3 0x90 60 100])]).dsp).Pairwise (fun a b => a < b) ∧
      (noteOnIds (execAll init [Call.run (block [midi3 0x90 60 100]),
        Call.run (block [midi3 0x90 60 100])]).dsp).Nodup :=
  ⟨by decide,
    (noteIds_unique_ascending [Call.run (block [midi3 0x90 60 100]),
      Call.run (block [midi3 0x90 60 100])] (by decide)).1,
    (noteIds_unique_ascending [Call.run (block [midi3 0x90 60 100]),
      Call.run (block [midi3 0x90 60 100])] (by decide)).2.1⟩

/-- The bytes of a three-byte message. -/
theorem midi3_bytes (status data1 data2 : ℕ) :
    (midi3 status data1 data2).size = 3 ∧ (midi3 status data1 data2).data 0 = status ∧
      (midi3 status data1 data2).data 1 = data1 ∧ (midi3 status data1 data2).data 2 = data2 :=
  ⟨rfl, rfl, rfl, rfl⟩

/-- C12. For every two distinct note numbers `a` and `b` and non-zero velocities, starting
from an empty held-note list and an empty de-duplication set, handling note-on(`a`),
note-on(`b`), note-off(`a`), note-off(`b`) in that order issues exactly two `dsp.noteOn`
calls with two distinct ids, then `dsp.noteOff` with the id given to `a` followed by
`dsp.noteOff` with the id given to `b`, and ends with an empty held-note list. -/
theorem two_notes_on_then_off (s : SyncSawSynth) (a b va vb wa wb : ℕ) (hab : a ≠ b)
    (hva : 0 < va) (hvb : 0 < vb) (hl : s.lastNoteId = [])
    (hd : s.alreadyRecievedNote = []) :
    ∃ ida idb : ℕ, ida ≠ idb ∧
      ([midi3 0x90 a va, midi3 0x90 b vb, midi3 0x80 a wa, midi3 0x80 b wb].foldl
          handleMidi s).dsp =
        s.dsp ++ [DspCall.noteOn ida a 0 ((va : ℚ) / 127), DspCall.noteOn idb b 0 ((vb : ℚ) / 127),
          DspCall.noteOff ida, DspCall.noteOff idb] ∧
      ([midi3 0x90 a va, midi3 0x90 b vb, midi3 0x80 a wa, midi3 0x80 b wb].foldl
          handleMidi s).lastNoteId = [] := by
  have e1 : handleMidi s (midi3 0x90 a va) =
      { s with
        dsp := s.dsp ++ [DspCall.noteOn s.noteId a 0 ((va : ℚ) / 127)]
        lastNoteId := [(a, s.noteId)]
        alreadyRecievedNote := [a]
        noteId := (s.noteId + 1) % UINT32_SIZE } := by
    rw [handleMidi_eq_noteOnCase s _ rfl (by rw [(midi3_bytes _ _ _).2.1]; decide)]
    simp [noteOnCase, midi3, hva, hl, hd, INT8_MAX]
  have e2 : handleMidi (handleMidi s (midi3 0x90 a va)) (midi3 0x90 b vb) =
      { s with
        dsp := s.dsp ++ [DspCall.noteOn s.noteId a 0 ((va : ℚ) / 127),
          DspCall.noteOn ((s.noteId + 1) % UINT32_SIZE) b 0 ((vb : ℚ) / 127)]
        lastNoteId := [(a, s.noteId), (b, (s.noteId + 1) % UINT32_SIZE)]
        alreadyRecievedNote := [a, b]
        noteId := ((s.noteId + 1) % UINT32_SIZE + 1) % UINT32_SIZE } := by
    rw [handleMidi_eq_noteOnCase _ _ rfl (by rw [(midi3_bytes _ _ _).2.1]; decide), e1]
    simp [noteOnCase, midi3, hvb, hab, INT8_MAX]
  have e3 : handleMidi (handleMidi (handleMidi s (midi3 0x90 a va)) (midi3 0x90 b vb))
      (midi3 0x80 a wa) =
      { s with
        dsp := s.dsp ++ [DspCall.noteOn s.noteId a 0 ((va : ℚ) / 127),
          DspCall.noteOn ((s.noteId + 1) % UINT32_SIZE) b 0 ((vb : ℚ) / 127),
          DspCall.noteOff s.noteId]
        lastNoteId := [(b, (s.noteId + 1) % UINT32_SIZE)]
        alreadyRecievedNote := [a, b]
        noteId := ((s.noteId + 1) % UINT32_SIZE + 1) % UINT32_SIZE } := by
    rw [handleMidi_eq_noteOffCase _ _ rfl (by rw [(midi3_bytes _ _ _).2.1]; decide), e2]
    simp [noteOffCase, midi3, List.findIdx_cons]
  have e4 : handleMidi (handleMidi (handleMidi (handleMidi s (midi3 0x90 a va))
      (midi3 0x90 b vb)) (midi3 0x80 a wa)) (midi3 0x80 b wb) =
      { s with
        dsp := s.dsp ++ [DspCall.noteOn s.noteId a 0 ((va : ℚ) / 127),
          DspCall.noteOn ((s.noteId + 1) % UINT32_SIZE) b 0 ((vb : ℚ) / 127),
          DspCall.noteOff s.noteId, DspCall.noteOff ((s.noteId + 1) % UINT32_SIZE)]
        lastNoteId := []
        alreadyRecievedNote := [a, b]
        noteId := ((s.noteId + 1) % UINT32_SIZE + 1) % UINT32_SIZE } := by
    rw [handleMidi_eq_noteOffCase _ _ rfl (by rw [(midi3_bytes _ _ _).2.1]; decide), e3]
    simp [noteOffCase, midi3, List.findIdx_cons]
  refine ⟨s.noteId, (s.noteId + 1) % UINT32_SIZE, ?_, ?_, ?_⟩
  · unfold UINT32_SIZE
    omega
  · simp only [List.foldl_cons, List.foldl_nil]
    rw [e4]
  · simp only [List.foldl_cons, List.foldl_nil]
    rw [e4]

/-- Witness for C12: `a = 60`, `b = 64`, velocity `100`, on the freshly constructed
plugin. -/
theorem two_notes_on_then_off_witness :
    ∃ ida idb : ℕ, ida ≠ idb ∧
      ([midi3 0x90 60 100, midi3 0x90 64 100, midi3 0x80 60 0, midi3 0x80 64 0].foldl
          handleMidi init).dsp =
        init.dsp ++ [DspCall.noteOn ida 60 0 (((100 : ℕ) : ℚ) / 127),
          DspCall.noteOn idb 64 0 (((100 : ℕ) : ℚ) / 127),
          DspCall.noteOff ida, DspCall.noteOff idb] ∧
      ([midi3 0x90 60 100, midi3 0x90 64 100, midi3 0x80 60 0, midi3 0x80 64 0].foldl
          handleMidi init).lastNoteId = [] :=
  two_notes_on_then_off init 60 64 100 100 0 0 (by decide) (by decide) (by decide) rfl rfl

/-- A note number found in `alreadyRecievedNote` after some events was there before them or
was put there by one of them: a three-byte note-on with non-zero velocity for that note
number, accepted because the note number was not yet in the set. -/
theorem mem_alreadyRecievedNote_foldl (pre : List MidiEvent) (s : SyncSawSynth) (note : ℕ)
    (hmem : note ∈ (pre.foldl handleMidi s).alreadyRecievedNote) :
    note ∈ s.alreadyRecievedNote ∨
      ∃ (p₁ : List MidiEvent) (e : MidiEvent) (p₂ : List MidiEvent),
        pre = p₁ ++ e :: p₂ ∧ e.size = 3 ∧ e.data 0 &&& 0xf0 = 0x90 ∧ 0 < e.data 2 ∧
          e.data 1 = note ∧ note ∉ (p₁.foldl handleMidi s).alreadyRecievedNote := by
  induction pre generalizing s with
  | nil => exact Or.inl hmem
  | cons e₀ rest ih =>
    rcases ih (handleMidi s e₀) hmem with h | ⟨p₁, e, p₂, hsplit, h1, h2, h3, h4, h5⟩
    · by_cases hin : note ∈ s.alreadyRecievedNote
      · exact Or.inl hin
      · right
        rcases handleMidi_cases s e₀ with he | ⟨c1, c2, c3, _, he⟩ | ⟨it, hit, he⟩ | he
        · rw [he] at h
          exact absurd h hin
        · rw [he] at h
          have h' : note ∈ s.alreadyRecievedNote ++ [e₀.data 1] := h
          rcases List.mem_append.mp h' with h'' | h''
          · exact absurd h'' hin
          · exact ⟨[], e₀, rest, rfl, c1, c2, c3, (List.mem_singleton.mp h'').symm, hin⟩
        · rw [he] at h
          exact absurd h hin
        · rw [he] at h
          exact absurd h hin
    · exact Or.inr ⟨e₀ :: p₁, e, p₂, by rw [hsplit]; rfl, h1, h2, h3, h4, h5⟩

/-- Calls made by the host leave `alreadyRecievedNote` empty if it was empty. -/
theorem alreadyRecievedNote_execAll_host (calls : List Call) (s : SyncSawSynth)
    (hhost : ∀ c ∈ calls, c.isHost = true) (hs : s.alreadyRecievedNote = []) :
    (execAll s calls).alreadyRecievedNote = [] := by
  induction calls generalizing s with
  | nil => exact hs
  | cons c cs ih =>
    have hc : c.isHost = true := hhost c (List.mem_cons_self _ _)
    have hcs : ∀ c ∈ cs, c.isHost = true := fun c' hc' => hhost c' (List.mem_cons_of_mem _ hc')
    apply ih (exec s c) hcs
    cases c with
    | run inp =>
      show (run s inp).alreadyRecievedNote = []
      unfold run
      by_cases hnull : inp.outputsNull = true
      · simp only [hnull, if_true]; exact hs
      · by_cases hby : inp.bypass = true
        · simp only [hnull, hby, if_true, if_false]; exact hs
        · simp only [hnull, hby, if_false]
          rfl
    | handleMidi ev => simp [Call.isHost] at hc
    | activate => exact hs
    | deactivate => exact hs

/-- C13. The per-block de-duplication set is clear before a block's MIDI events are
processed.  For every sequence of `run`, `activate` and `deactivate` calls starting from
construction (bypassed `run` calls and calls with null `outputs` included),
`alreadyRecievedNote` is empty between the calls and when the event loop of the next `run`
starts; so whenever, inside that block, a note number is in the set (and a note-on for it is
ignored as a duplicate), an earlier event of the same block was a note-on for that note
number that was accepted. -/
theorem dedup_set_empty_at_block_start (calls : List Call)
    (hhost : ∀ c ∈ calls, c.isHost = true) :
    (execAll init calls).alreadyRecievedNote = [] ∧
      ∀ inp : RunInput,
        (runBegin (execAll init calls) inp).alreadyRecievedNote = [] ∧
        ∀ (pre : List MidiEvent) (note : ℕ),
          note ∈ (pre.foldl handleMidi (runBegin (execAll init calls) inp)).alreadyRecievedNote →
          ∃ (p₁ : List MidiEvent) (e : MidiEvent) (p₂ : List MidiEvent),
            pre = p₁ ++ e :: p₂ ∧ e.size = 3 ∧ e.data 0 &&& 0xf0 = 0x90 ∧ 0 < e.data 2 ∧
              e.data 1 = note ∧
              note ∉ (p₁.foldl handleMidi
                (runBegin (execAll init calls) inp)).alreadyRecievedNote := by
  have h0 := alreadyRecievedNote_execAll_host calls init hhost rfl
  refine ⟨h0, fun inp => ?_⟩
  have hb : (runBegin (execAll init calls) inp).alreadyRecievedNote = [] :=
    (runBegin_fields _ inp).2.2.1.trans h0
  refine ⟨hb, fun pre note hmem => ?_⟩
  rcases mem_alreadyRecievedNote_foldl pre _ note hmem with h | h
  · rw [hb] at h
    exact absurd h (List.not_mem_nil _)
  · exact h

/-- Witness for C13: a block with a note-on, a `run` with null `outputs`, `deactivate`,
`activate` and a bypassed `run`. -/
theorem dedup_set_empty_at_block_start_witness :
    (∀ c ∈ [Call.run (block [midi3 0x90 60 100]),
        Call.run { block [midi3 0x90 61 100] with outputsNull := true },
        Call.deactivate, Call.activate,
        Call.run { block [midi3 0x90 62 100] with bypass := true }], c.isHost = true) ∧
      (execAll init [Call.run (block [midi3 0x90 60 100]),
        Call.run { block [midi3 0x90 61 100] with outputsNull := true },
        Call.deactivate, Call.activate,
        Call.run { block [midi3 0x90 62 100] with bypass := true }]).alreadyRecievedNote = [] :=
  ⟨by decide,
    (dedup_set_empty_at_block_start [Call.run (block [midi3 0x90 60 100]),
      Call.run { block [midi3 0x90 61 100] with outputsNull := true },
      Call.deactivate, Call.activate,
      Call.run { block [midi3 0x90 62 100] with bypass := true }] (by decide)).1⟩

/-- A three-byte message whose status byte has high nibble `0xe0` is handled by the
pitch-bend branch. -/
theorem handleMidi_eq_pitchBendCase (s : SyncSawSynth) (ev : MidiEvent) (hsize : ev.size = 3)
    (hst : ev.data 0 &&& 0xf0 = 0xe0) : handleMidi s ev = pitchBendCase s ev := by
  simp [handleMidi, hsize, hst]

/-- C14. For a three-byte pitch-bend event (status high nibble `0xe0`) with 7-bit data bytes
`d1 = data[1]`, `d2 = data[2]` in `[0, 127]`, the 14-bit value `v = d2 * 128 + d1` lies in
`[0, 16383]`, the `pitchBend` parameter is given `v / 16384` (by `setFromRaw`, the only call
made on `dsp`), the centre position `d1 = 0`, `d2 = 64` gives `v = 8192` and the value `1/2`,
and `noteId`, `lastNoteId`, `alreadyRecievedNote` are unchanged. -/
theorem handleMidi_pitchBend (s : SyncSawSynth) (ev : MidiEvent) (hsize : ev.size = 3)
    (hst : ev.data 0 &&& 0xf0 = 0xe0) (hd1 : ev.data 1 ≤ 127) (hd2 : ev.data 2 ≤ 127) :
    ev.data 2 * 128 + ev.data 1 ≤ 16383 ∧
      (handleMidi s ev).dsp =
        s.dsp ++ [DspCall.pitchBendSetFromRaw (((ev.data 2 * 128 + ev.data 1 : ℕ) : ℚ) / 16384)] ∧
      (handleMidi s ev).noteId = s.noteId ∧
      (handleMidi s ev).lastNoteId = s.lastNoteId ∧
      (handleMidi s ev).alreadyRecievedNote = s.alreadyRecievedNote ∧
      (handleMidi s ev).wasPlaying = s.wasPlaying ∧
      (ev.data 1 = 0 → ev.data 2 = 64 →
        ev.data 2 * 128 + ev.data 1 = 8192 ∧
          (((ev.data 2 * 128 + ev.data 1 : ℕ) : ℚ) / 16384) = 1 / 2) := by
  rw [handleMidi_eq_pitchBendCase s ev hsize hst]
  have hshift : (ev.data 2 <<< 7) + ev.data 1 = ev.data 2 * 128 + ev.data 1 := by
    rw [Nat.shiftLeft_eq]
  refine ⟨by omega, ?_, rfl, rfl, rfl, rfl, ?_⟩
  · show s.dsp ++ [DspCall.pitchBendSetFromRaw
      ((((ev.data 2 <<< 7) + ev.data 1 : ℕ) : ℚ) / 16384)] = _
    rw [hshift]
  · intro h1 h2
    rw [h1, h2]
    constructor
    · rfl
    · norm_num

/-- Witness for C14: the centre position `0xe0 0 64`. -/
theorem handleMidi_pitchBend_witness :
    (midi3 0xe0 0 64).data 2 * 128 + (midi3 0xe0 0 64).data 1 ≤ 16383 ∧
      (handleMidi init (midi3 0xe0 0 64)).dsp =
        init.dsp ++ [DspCall.pitchBendSetFromRaw
          ((((midi3 0xe0 0 64).data 2 * 128 + (midi3 0xe0 0 64).data 1 : ℕ) : ℚ) / 16384)] ∧
      (handleMidi init (midi3 0xe0 0 64)).noteId = init.noteId :=
  ⟨(handleMidi_pitchBend init (midi3 0xe0 0 64) rfl (by decide) (by decide) (by decide)).1,
    (handleMidi_pitchBend init (midi3 0xe0 0 64) rfl (by decide) (by decide) (by decide)).2.1,
    (handleMidi_pitchBend init (midi3 0xe0 0 64) rfl (by decide) (by decide) (by decide)).2.2.1⟩

/-- C15. A MIDI event whose byte count is not `3` is dropped: for every such event and
every dispatcher state `handleMidi` returns the object unchanged, whatever the status byte;
so `noteId`, `lastNoteId`, `alreadyRecievedNote` are unchanged and no call is made on `dsp`
(no `noteOn`, no `noteOff`, no write to the pitch-bend parameter). -/
theorem handleMidi_wrong_size_dropped (s : SyncSawSynth) (ev : MidiEvent)
    (hsize : ev.size ≠ 3) : handleMidi s ev = s := by
  simp [handleMidi, hsize]

/-- Witness for C15: a two-byte message starting with a note-on status, while key `60` is
held. -/
theorem handleMidi_wrong_size_dropped_witness :
    handleMidi (handleMidi init (midi3 0x90 60 100))
        { frame := 0, size := 2, data := ![0x90, 61, 100, 0] } =
      handleMidi init (midi3 0x90 60 100) :=
  handleMidi_wrong_size_dropped (handleMidi init (midi3 0x90 60 100))
    { frame := 0, size := 2, data := ![0x90, 61, 100, 0] } (by decide)

/-- C16, as the code has it.  `deactivate()` followed by `activate()` only calls
`dsp.reset()` and then `dsp.startup()`: the plugin's own dispatcher state (`lastNoteId`,
`noteId`, `alreadyRecievedNote`, `wasPlaying`) is left as it was, so afterwards
`lastNoteId` is empty exactly when it was empty before the calls. -/
theorem deactivate_activate_keeps_dispatcher (s : SyncSawSynth) :
    (activate (deactivate s)).dsp = s.dsp ++ [DspCall.reset, DspCall.startup] ∧
      (activate (deactivate s)).lastNoteId = s.lastNoteId ∧
      (activate (deactivate s)).noteId = s.noteId ∧
      (activate (deactivate s)).alreadyRecievedNote = s.alreadyRecievedNote ∧
      (activate (deactivate s)).wasPlaying = s.wasPlaying ∧
      ((activate (deactivate s)).lastNoteId = [] ↔ s.lastNoteId = []) := by
  refine ⟨?_, rfl, rfl, rfl, rfl, Iff.rfl⟩
  simp [activate, deactivate]

/-- C16 as stated fails.  With key `60` held under id `0` (the state after the note-on
`0x90 60 100` on the freshly constructed plugin), `deactivate()` followed by `activate()`
leaves the entry `(60, 0)` in `lastNoteId`. -/
theorem deactivate_activate_counterexample :
    (handleMidi init (midi3 0x90 60 100)).lastNoteId = [(60, 0)] ∧
      (activate (deactivate (handleMidi init (midi3 0x90 60 100)))).lastNoteId = [(60, 0)] ∧
      (activate (deactivate (handleMidi init (midi3 0x90 60 100)))).lastNoteId ≠
        init.lastNoteId := by
  have h : (activate (deactivate (handleMidi init (midi3 0x90 60 100)))).lastNoteId =
      (handleMidi init (midi3 0x90 60 100)).lastNoteId := rfl
  rw [h, handleMidi_init_noteOn]
  exact ⟨rfl, rfl, by simp [init]⟩

/-- An accepted note-on, as a whole-object equation. -/
theorem handleMidi_accept (s : SyncSawSynth) (ev : MidiEvent) (hsize : ev.size = 3)
    (hst : ev.data 0 &&& 0xf0 = 0x90) (hvel : 0 < ev.data 2)
    (hnew : ev.data 1 ∉ s.alreadyRecievedNote) :
    handleMidi s ev =
      { s with
        dsp := s.dsp ++
          [DspCall.noteOn s.noteId (ev.data 1) 0 ((ev.data 2 : ℚ) / (INT8_MAX : ℚ))]
        lastNoteId := s.lastNoteId ++ [(ev.data 1, s.noteId)]
        alreadyRecievedNote := s.alreadyRecievedNote ++ [ev.data 1]
        noteId := (s.noteId + 1) % UINT32_SIZE } := by
  rcases handleMidi_cases s ev with he | ⟨_, _, _, _, he⟩ | ⟨it, hit, he⟩ | he
  · exfalso
    rw [handleMidi_eq_noteOnCase s ev hsize hst] at he
    have hany : s.alreadyRecievedNote.any (fun noteNo => noteNo == ev.data 1) = false := by
      rw [Bool.eq_false_iff]
      intro h
      obtain ⟨x, hx, hxe⟩ := List.any_eq_true.mp h
      exact hnew ((beq_iff_eq.mp hxe) ▸ hx)
    have hlen := congrArg (fun t : SyncSawSynth => t.dsp.length) he
    simp [noteOnCase, hvel, hany] at hlen
  · exact he
  · exfalso
    rw [handleMidi_eq_noteOnCase s ev hsize hst] at he
    have hlen := congrArg (fun t : SyncSawSynth => t.alreadyRecievedNote.length) he
    have hany : s.alreadyRecievedNote.any (fun noteNo => noteNo == ev.data 1) = false := by
      rw [Bool.eq_false_iff]
      intro h
      obtain ⟨x, hx, hxe⟩ := List.any_eq_true.mp h
      exact hnew ((beq_iff_eq.mp hxe) ▸ hx)
    simp [noteOnCase, hvel, hany] at hlen
  · exfalso
    rw [handleMidi_eq_noteOnCase s ev hsize hst] at he
    have hlen := congrArg (fun t : SyncSawSynth => t.alreadyRecievedNote.length) he
    have hany : s.alreadyRecievedNote.any (fun noteNo => noteNo == ev.data 1) = false := by
      rw [Bool.eq_false_iff]
      intro h
      obtain ⟨x, hx, hxe⟩ := List.any_eq_true.mp h
      exact hnew ((beq_iff_eq.mp hxe) ▸ hx)
    simp [noteOnCase, hvel, hany, pitchBendCase] at hlen

/-- A block whose only event is the note-on `0x90 60 100`, entered with an empty
de-duplication set, appends one pair to `lastNoteId` and ends with the set empty. -/
theorem run_block_noteOn (s : SyncSawSynth) (hs : s.alreadyRecievedNote = []) :
    (run s (block [midi3 0x90 60 100])).lastNoteId = s.lastNoteId ++ [(60, s.noteId)] ∧
      (run s (block [midi3 0x90 60 100])).alreadyRecievedNote = [] := by
  obtain ⟨b1, b2, b3, _, _⟩ := runBegin_fields s (block [midi3 0x90 60 100])
  have hr : run s (block [midi3 0x90 60 100]) =
      runEnd (handleMidi (runBegin s (block [midi3 0x90 60 100])) (midi3 0x90 60 100))
        (block [midi3 0x90 60 100]) := by
    simp [run, block]
  have hnew : (midi3 0x90 60 100).data 1 ∉
      (runBegin s (block [midi3 0x90 60 100])).alreadyRecievedNote := by
    rw [b3, hs]
    exact List.not_mem_nil _
  rw [hr, handleMidi_accept _ _ rfl (by decide) (by decide) hnew]
  constructor
  · show (runBegin s (block [midi3 0x90 60 100])).lastNoteId ++
      [((midi3 0x90 60 100).data 1, (runBegin s (block [midi3 0x90 60 100])).noteId)] = _
    rw [b1, b2]
    rfl
  · rfl

/-- Pressing key `60` in each of `k` consecutive blocks, never releasing it, adds `k`
entries to `lastNoteId`. -/
theorem lastNoteId_length_replicate (k : ℕ) (s : SyncSawSynth)
    (hs : s.alreadyRecievedNote = []) :
    (execAll s (List.replicate k (Call.run (block [midi3 0x90 60 100])))).lastNoteId.length =
      s.lastNoteId.length + k := by
  induction k generalizing s with
  | zero => rfl
  | succ k ih =>
    obtain ⟨h1, h2⟩ := run_block_noteOn s hs
    have e : execAll s (List.replicate (k + 1) (Call.run (block [midi3 0x90 60 100]))) =
        execAll (run s (block [midi3 0x90 60 100]))
          (List.replicate k (Call.run (block [midi3 0x90 60 100]))) := rfl
    rw [e, ih _ h2, h1, List.length_append, List.length_singleton]
    omega

/-- Note-ons for the keys `0, 1, …, k - 1` in one block put these `k` note numbers into
`alreadyRecievedNote`. -/
theorem alreadyRecievedNote_range (k : ℕ) :
    (((List.range k).map (fun n => midi3 0x90 n 100)).foldl handleMidi
      init).alreadyRecievedNote = List.range k := by
  induction k with
  | zero => rfl
  | succ k ih =>
    have hnew : (midi3 0x90 k 100).data 1 ∉
        (((List.range k).map (fun n => midi3 0x90 n 100)).foldl handleMidi
          init).alreadyRecievedNote := by
      rw [ih, (midi3_bytes _ _ _).2.2.1]
      intro h
      exact absurd (List.mem_range.mp h) (lt_irrefl k)
    rw [List.range_succ, List.map_append, List.foldl_append, List.map_singleton,
      List.foldl_cons, List.foldl_nil,
      handleMidi_accept _ _ rfl (by rw [(midi3_bytes _ _ _).2.1]; decide)
        (by rw [(midi3_bytes _ _ _).2.2.2]; decide) hnew]
    show (((List.range k).map (fun n => midi3 0x90 n 100)).foldl handleMidi
      init).alreadyRecievedNote ++ [(midi3 0x90 k 100).data 1] = _
    rw [ih]
    rfl

/-- C20, as the code has it.  In every state reachable by any sequence of `run`,
`handleMidi`, `activate` and `deactivate` calls, `lastNoteId` holds exactly as many entries
as `dsp.noteOn` calls were made minus `dsp.noteOff` calls (one entry per accepted note-on
that was not released), and `alreadyRecievedNote` holds pairwise distinct note numbers;
neither size is tied to `dsp.maxVoice`. -/
theorem vector_sizes_reachable (calls : List Call) :
    (execAll init calls).lastNoteId.length + noteOffCount (execAll init calls).dsp =
        (noteOnIds (execAll init calls).dsp).length ∧
      (execAll init calls).alreadyRecievedNote.Nodup := by
  obtain ⟨_, _, _, h4, h5⟩ := consistent_execAll calls
  exact ⟨h4, h5⟩

/-- C20 as stated fails.  Pressing key `60` in three consecutive blocks without releasing it
leaves three entries in `lastNoteId`; in general, for every value of `dsp.maxVoice`,
`maxVoice + 2` such blocks leave more than `maxVoice + 1` entries; and for `maxVoice < 128`
one block with note-ons for the keys `0, …, maxVoice` puts more than `maxVoice` note numbers
into `alreadyRecievedNote`. -/
theorem reserved_capacity_counterexample :
    (execAll init (List.replicate 3 (Call.run (block [midi3 0x90 60 100])))).lastNoteId =
        [(60, 0), (60, 1), (60, 2)] ∧
      (∀ maxVoice : ℕ, maxVoice + 1 <
        (execAll init (List.replicate (maxVoice + 2)
          (Call.run (block [midi3 0x90 60 100])))).lastNoteId.length) ∧
      (∀ maxVoice : ℕ, maxVoice < 128 → maxVoice <
        (((List.range (maxVoice + 1)).map (fun n => midi3 0x90 n 100)).foldl handleMidi
          init).alreadyRecievedNote.length) := by
  refine ⟨by decide, fun maxVoice => ?_, fun maxVoice _ => ?_⟩
  · rw [lastNoteId_length_replicate (maxVoice + 2) init rfl]
    show maxVoice + 1 < 0 + (maxVoice + 2)
    omega
  · rw [alreadyRecievedNote_range, List.length_range]
    omega

end SyncSawSynth

end DISTRHO

namespace SomeDSP

namespace BiquadOscN

variable {α : Type*} {size : ℕ}

/-! ### Sample rate, stale coefficients, determinism -/

/-- Two objects with the same five arrays are equal. -/
theorem eq_of_arrays (a b : BiquadOscN α size) (h1 : a.frequency = b.frequency)
    (h2 : a.gain = b.gain) (h3 : a.u1 = b.u1) (h4 : a.u0 = b.u0) (h5 : a.k = b.k) : a = b := by
  cases a
  cases b
  simp only [mk.injEq]
  exact ⟨h1, h2, h3, h4, h5⟩

/-- What `setup` stores, for any field, any functions `sin`, `cos` and any constant
`twopi`. -/
theorem setup_arrays [Field α] (sin cos : α → α) (twopi sampleRate : α)
    (o : BiquadOscN α size) :
    (setup sin cos twopi sampleRate o).frequency = o.frequency ∧
      (setup sin cos twopi sampleRate o).gain = o.gain ∧
      (setup sin cos twopi sampleRate o).u1 = (fun _ => 0) ∧
      (setup sin cos twopi sampleRate o).u0 =
        (fun i => -sin (twopi * o.frequency i / sampleRate)) ∧
      (setup sin cos twopi sampleRate o).k =
        (fun i => 2 * cos (twopi * o.frequency i / sampleRate)) := by
  have h := setup_foldl sin cos twopi sampleRate (List.finRange size)
    { o with u1 := fun _ => 0 }
  simp only [List.mem_finRange, if_true] at h
  obtain ⟨h1, h2, h3, h4, h5⟩ := h
  exact ⟨h1, h2, h3, funext h4, funext h5⟩

/-- One call of `process` reads `gain`, `k`, `u0`, `u1` only. -/
theorem process_congr [Field α] (o o' : BiquadOscN α size) (hg : o.gain = o'.gain)
    (hk : o.k = o'.k) (hu0 : o.u0 = o'.u0) (hu1 : o.u1 = o'.u1) :
    (process o).2 = (process o').2 ∧ (process o).1.gain = (process o').1.gain ∧
      (process o).1.k = (process o').1.k ∧ (process o).1.u0 = (process o').1.u0 ∧
      (process o).1.u1 = (process o').1.u1 := by
  obtain ⟨_, a2, a3, a4, a5, a6⟩ := process_loop o
  obtain ⟨_, b2, b3, b4, b5, b6⟩ := process_loop o'
  refine ⟨?_, ?_, ?_, ?_, ?_⟩
  · show (forLoop size processBody (o, (0 : α))).2 / (size : α) =
      (forLoop size processBody (o', (0 : α))).2 / (size : α)
    rw [a6, b6, hg, hk, hu0, hu1]
  · exact a2.trans (hg.trans b2.symm)
  · exact a3.trans (hk.trans b3.symm)
  · funext j
    exact (a4 j).trans ((congrFun hu1 j).trans (b4 j).symm)
  · funext j
    have e1 : (process o).1.u1 j = o.k j * o.u1 j - o.u0 j := a5 j
    have e2 : (process o').1.u1 j = o'.k j * o'.u1 j - o'.u0 j := b5 j
    rw [e1, e2, hk, hu0, hu1]

/-- Any number of calls of `process` reads `gain`, `k`, `u0`, `u1` only. -/
theorem afterProcess_congr [Field α] (o o' : BiquadOscN α size) (hg : o.gain = o'.gain)
    (hk : o.k = o'.k) (hu0 : o.u0 = o'.u0) (hu1 : o.u1 = o'.u1) (n : ℕ) :
    (afterProcess o n).gain = (afterProcess o' n).gain ∧
      (afterProcess o n).k = (afterProcess o' n).k ∧
      (afterProcess o n).u0 = (afterProcess o' n).u0 ∧
      (afterProcess o n).u1 = (afterProcess o' n).u1 := by
  induction n with
  | zero => exact ⟨hg, hk, hu0, hu1⟩
  | succ n ih =>
    obtain ⟨i1, i2, i3, i4⟩ := ih
    exact (process_congr _ _ i1 i2 i3 i4).2

/-- A process call on an object whose `gain`, `k`, `u0`, `u1` are all zero returns `0` and
leaves them zero. -/
theorem process_zero [Field α] (o : BiquadOscN α size) (hg : o.gain = fun _ => 0)
    (hk : o.k = fun _ => 0) (hu0 : o.u0 = fun _ => 0) (hu1 : o.u1 = fun _ => 0) :
    (process o).2 = 0 ∧ ((process o).1.gain = fun _ => 0) ∧ ((process o).1.k = fun _ => 0) ∧
      ((process o).1.u0 = fun _ => 0) ∧ ((process o).1.u1 = fun _ => 0) := by
  obtain ⟨_, a2, a3, a4, a5, a6⟩ := process_loop o
  refine ⟨?_, a2.trans hg, a3.trans hk, ?_, ?_⟩
  · show (forLoop size processBody (o, (0 : α))).2 / (size : α) = 0
    rw [a6, hg]
    simp
  · funext j
    exact (a4 j).trans (congrFun hu1 j)
  · funext j
    have e1 : (process o).1.u1 j = o.k j * o.u1 j - o.u0 j := a5 j
    rw [e1, hk, hu0, hu1]
    simp

/-- C17, as the code has it.  `setup` does not clamp the sample rate: for a negative
`sampleRate` it divides by the value it is given, so `k[i] = 2 cos (2 π frequency[i] /
sampleRate)` and `u0[i] = -sin (2 π frequency[i] / sampleRate)`, which are the coefficients
of the positive rate `|sampleRate|` with `u0` negated; in exact arithmetic these are numbers
with `|k[i]| ≤ 2` and `|u0[i]| ≤ 1`. -/
theorem setup_negative_sampleRate_not_clamped (sampleRate : ℝ) (hsr : sampleRate < 0)
    (o : BiquadOscN ℝ size) :
    (∀ i, (setup Real.sin Real.cos (2 * Real.pi) sampleRate o).k i =
        2 * Real.cos (2 * Real.pi * o.frequency i / sampleRate)) ∧
      (∀ i, (setup Real.sin Real.cos (2 * Real.pi) sampleRate o).u0 i =
        -Real.sin (2 * Real.pi * o.frequency i / sampleRate)) ∧
      (∀ i, (setup Real.sin Real.cos (2 * Real.pi) sampleRate o).k i =
        (setup Real.sin Real.cos (2 * Real.pi) |sampleRate| o).k i) ∧
      (∀ i, (setup Real.sin Real.cos (2 * Real.pi) sampleRate o).u0 i =
        -(setup Real.sin Real.cos (2 * Real.pi) |sampleRate| o).u0 i) ∧
      (∀ i, |(setup Real.sin Real.cos (2 * Real.pi) sampleRate o).k i| ≤ 2 ∧
        |(setup Real.sin Real.cos (2 * Real.pi) sampleRate o).u0 i| ≤ 1) := by
  rw [abs_of_neg hsr]
  obtain ⟨_, _, _, a4, a5⟩ := setup_arrays Real.sin Real.cos (2 * Real.pi) sampleRate o
  obtain ⟨_, _, _, b4, b5⟩ := setup_arrays Real.sin Real.cos (2 * Real.pi) (-sampleRate) o
  have hneg : ∀ i, 2 * Real.pi * o.frequency i / -sampleRate =
      -(2 * Real.pi * o.frequency i / sampleRate) := fun i => by
    rw [div_neg]
  refine ⟨fun i => congrFun a5 i, fun i => congrFun a4 i, fun i => ?_, fun i => ?_, fun i => ?_⟩
  · rw [congrFun a5 i, congrFun b5 i, hneg, Real.cos_neg]
  · rw [congrFun a4 i, congrFun b4 i, hneg, Real.sin_neg, neg_neg]
  · rw [congrFun a5 i, congrFun a4 i, abs_neg, abs_mul, abs_two]
    exact ⟨by linarith [Real.abs_cos_le_one (2 * Real.pi * o.frequency i / sampleRate)],
      Real.abs_sin_le_one _⟩

/-- Witness for C17 as the code has it: one partial of frequency `1` at sample rate `-4`. -/
theorem setup_negative_sampleRate_not_clamped_witness :
    (-4 : ℝ) < 0 ∧
      ∀ i, (setup Real.sin Real.cos (2 * Real.pi) (-4)
        ({ frequency := fun _ => 1, gain := fun _ => 1, u1 := fun _ => 0, u0 := fun _ => 0,
           k := fun _ => 0 } : BiquadOscN ℝ 1)).u0 i =
        -Real.sin (2 * Real.pi * 1 / (-4)) :=
  ⟨by norm_num,
    (setup_negative_sampleRate_not_clamped (-4) (by norm_num)
      ({ frequency := fun _ => 1, gain := fun _ => 1, u1 := fun _ => 0, u0 := fun _ => 0,
         k := fun _ => 0 } : BiquadOscN ℝ 1)).2.1⟩

/-- C17 as stated fails.  For one partial of frequency `1`, `setup(-4)` stores `u0 = 1`
and `setup(-2)` stores `u0 = 0`: the non-positive sample rate is used as the divisor, so
there is no positive minimum `m` that `setup` substitutes for every `sampleRate ≤ 0`. -/
theorem setup_clamp_counterexample :
    (setup Real.sin Real.cos (2 * Real.pi) (-4)
        ({ frequency := fun _ => 1, gain := fun _ => 1, u1 := fun _ => 0, u0 := fun _ => 0,
           k := fun _ => 0 } : BiquadOscN ℝ 1)).u0 0 = 1 ∧
      (setup Real.sin Real.cos (2 * Real.pi) (-2)
        ({ frequency := fun _ => 1, gain := fun _ => 1, u1 := fun _ => 0, u0 := fun _ => 0,
           k := fun _ => 0 } : BiquadOscN ℝ 1)).u0 0 = 0 ∧
      ¬ ∃ m : ℝ, 0 < m ∧ ∀ sampleRate : ℝ, sampleRate ≤ 0 →
        setup Real.sin Real.cos (2 * Real.pi) sampleRate
          ({ frequency := fun _ => 1, gain := fun _ => 1, u1 := fun _ => 0, u0 := fun _ => 0,
             k := fun _ => 0 } : BiquadOscN ℝ 1) =
        setup Real.sin Real.cos (2 * Real.pi) m
          ({ frequency := fun _ => 1, gain := fun _ => 1, u1 := fun _ => 0, u0 := fun _ => 0,
             k := fun _ => 0 } : BiquadOscN ℝ 1) := by
  have h4 : (setup Real.sin Real.cos (2 * Real.pi) (-4)
      ({ frequency := fun _ => 1, gain := fun _ => 1, u1 := fun _ => 0, u0 := fun _ => 0,
         k := fun _ => 0 } : BiquadOscN ℝ 1)).u0 0 = 1 := by
    rw [congrFun (setup_arrays Real.sin Real.cos (2 * Real.pi) (-4) _).2.2.2.1 0]
    have e : 2 * Real.pi * 1 / (-4 : ℝ) = -(Real.pi / 2) := by ring
    show -Real.sin (2 * Real.pi * 1 / (-4 : ℝ)) = 1
    rw [e, Real.sin_neg, Real.sin_pi_div_two]
    norm_num
  have h2 : (setup Real.sin Real.cos (2 * Real.pi) (-2)
      ({ frequency := fun _ => 1, gain := fun _ => 1, u1 := fun _ => 0, u0 := fun _ => 0,
         k := fun _ => 0 } : BiquadOscN ℝ 1)).u0 0 = 0 := by
    rw [congrFun (setup_arrays Real.sin Real.cos (2 * Real.pi) (-2) _).2.2.2.1 0]
    have e : 2 * Real.pi * 1 / (-2 : ℝ) = -Real.pi := by ring
    show -Real.sin (2 * Real.pi * 1 / (-2 : ℝ)) = 0
    rw [e, Real.sin_neg, Real.sin_pi]
    norm_num
  refine ⟨h4, h2, ?_⟩
  rintro ⟨m, _, hm⟩
  have e4 := hm (-4) (by norm_num)
  have e2 := hm (-2) (by norm_num)
  rw [e4] at h4
  rw [e2] at h2
  rw [h4] at h2
  exact one_ne_zero h2

/-- C18. Coefficients go stale unless `setup` is called: `process` reads only `gain`, `k`,
`u0` and `u1`, never `frequency`.  Two objects that differ only in `frequency` return the
same sample from every call of `process` and hold the same registers (and the same `k` and
`gain`) after any number of calls; and a value-initialised object on which `setup` was never
called returns `0` from every call of `process`. -/
theorem process_never_reads_frequency [Field α] (o o' : BiquadOscN α size)
    (hg : o.gain = o'.gain) (hk : o.k = o'.k) (hu0 : o.u0 = o'.u0) (hu1 : o.u1 = o'.u1) :
    (∀ n, nthOutput o n = nthOutput o' n ∧
        (afterProcess o n).u0 = (afterProcess o' n).u0 ∧
        (afterProcess o n).u1 = (afterProcess o' n).u1 ∧
        (afterProcess o n).k = (afterProcess o' n).k ∧
        (afterProcess o n).gain = (afterProcess o' n).gain) ∧
      (∀ n, 1 ≤ n → nthOutput (init : BiquadOscN α size) n = 0) := by
  constructor
  · intro n
    obtain ⟨c1, c2, c3, c4⟩ := afterProcess_congr o o' hg hk hu0 hu1 n
    refine ⟨?_, c3, c4, c2, c1⟩
    cases n with
    | zero => rfl
    | succ m =>
      obtain ⟨d1, d2, d3, d4⟩ := afterProcess_congr o o' hg hk hu0 hu1 m
      exact (process_congr _ _ d1 d2 d3 d4).1
  · have hz : ∀ m, ((afterProcess (init : BiquadOscN α size) m).gain = fun _ => 0) ∧
        ((afterProcess (init : BiquadOscN α size) m).k = fun _ => 0) ∧
        ((afterProcess (init : BiquadOscN α size) m).u0 = fun _ => 0) ∧
        ((afterProcess (init : BiquadOscN α size) m).u1 = fun _ => 0) := by
      intro m
      induction m with
      | zero => exact ⟨rfl, rfl, rfl, rfl⟩
      | succ m ih =>
        obtain ⟨i1, i2, i3, i4⟩ := ih
        exact (process_zero _ i1 i2 i3 i4).2
    intro n hn
    obtain ⟨m, rfl⟩ : ∃ m, n = m + 1 := ⟨n - 1, by omega⟩
    obtain ⟨i1, i2, i3, i4⟩ := hz m
    exact (process_zero _ i1 i2 i3 i4).1

/-- Witness for C18: two one-partial objects over the rationals with frequencies `440` and
`880` and the same `gain`, `k`, `u0`, `u1`; third call of `process`. -/
theorem process_never_reads_frequency_witness :
    nthOutput
        ({ frequency := fun _ => 440, gain := fun _ => 1, u1 := fun _ => 0,
           u0 := fun _ => -1, k := fun _ => 1 } : BiquadOscN ℚ 1) 3 =
      nthOutput
        ({ frequency := fun _ => 880, gain := fun _ => 1, u1 := fun _ => 0,
           u0 := fun _ => -1, k := fun _ => 1 } : BiquadOscN ℚ 1) 3 :=
  ((process_never_reads_frequency
    ({ frequency := fun _ => 440, gain := fun _ => 1, u1 := fun _ => 0,
       u0 := fun _ => -1, k := fun _ => 1 } : BiquadOscN ℚ 1)
    ({ frequency := fun _ => 880, gain := fun _ => 1, u1 := fun _ => 0,
       u0 := fun _ => -1, k := fun _ => 1 } : BiquadOscN ℚ 1) rfl rfl rfl rfl).1 3).1

/-- C19. Determinism of the oscillator: for any two objects with equal `frequency` and
`gain` arrays (the registers `u0`, `u1`, `k` arbitrary and possibly different), `setup` with
the same sample rate gives the same object, and then `N` calls of `process` return the same
samples and end in the same object, for every `N` (for any field and any functions `sin`,
`cos`). -/
theorem setup_then_process_deterministic [Field α] (sin cos : α → α) (twopi sampleRate : α)
    (o o' : BiquadOscN α size) (hf : o.frequency = o'.frequency) (hg : o.gain = o'.gain) :
    setup sin cos twopi sampleRate o = setup sin cos twopi sampleRate o' ∧
      ∀ N, (∀ n, n ≤ N → nthOutput (setup sin cos twopi sampleRate o) n =
            nthOutput (setup sin cos twopi sampleRate o') n) ∧
        afterProcess (setup sin cos twopi sampleRate o) N =
          afterProcess (setup sin cos twopi sampleRate o') N := by
  have hs : setup sin cos twopi sampleRate o = setup sin cos twopi sampleRate o' := by
    obtain ⟨a1, a2, a3, a4, a5⟩ := setup_arrays sin cos twopi sampleRate o
    obtain ⟨b1, b2, b3, b4, b5⟩ := setup_arrays sin cos twopi sampleRate o'
    apply eq_of_arrays
    · rw [a1, b1, hf]
    · rw [a2, b2, hg]
    · rw [a3, b3]
    · rw [a4, b4, hf]
    · rw [a5, b5, hf]
  refine ⟨hs, fun N => ?_⟩
  rw [hs]
  exact ⟨fun _ _ => rfl, rfl⟩

/-- Witness for C19: two one-partial objects with the same `frequency` and `gain` and
different registers, at sample rate `48000`; two calls of `process`. -/
theorem setup_then_process_deterministic_witness :
    afterProcess (setup Real.sin Real.cos (2 * Real.pi) 48000
        ({ frequency := fun _ => 440, gain := fun _ => 1, u1 := fun _ => 3,
           u0 := fun _ => -1, k := fun _ => 1 } : BiquadOscN ℝ 1)) 2 =
      afterProcess (setup Real.sin Real.cos (2 * Real.pi) 48000
        ({ frequency := fun _ => 440, gain := fun _ => 1, u1 := fun _ => 0,
           u0 := fun _ => 5, k := fun _ => 7 } : BiquadOscN ℝ 1)) 2 :=
  ((setup_then_process_deterministic Real.sin Real.cos (2 * Real.pi) 48000
    ({ frequency := fun _ => 440, gain := fun _ => 1, u1 := fun _ => 3,
       u0 := fun _ => -1, k := fun _ => 1 } : BiquadOscN ℝ 1)
    ({ frequency := fun _ => 440, gain := fun _ => 1, u1 := fun _ => 0,
       u0 := fun _ => 5, k := fun _ => 7 } : BiquadOscN ℝ 1) rfl rfl).2 2).2

end BiquadOscN

end SomeDSP

namespace Scale

/-! ### `BoolScale` and `LinearScale` -/

/-- C23, as the code has it.  `BoolScale` rounds values close to `0` to false: `map x` is
false for every `x <= 0.5` and true for every `x > 0.5`; `reverseMap x` is the negation of
`map x` for every `x` that is not a NaN (numbers and both infinities), while for a NaN both
`map` and `reverseMap` return false; and `map (invmap b) = b` for both boolean values. -/
theorem boolScale_reverseMap_negation_except_nan {α : Type*} [LinearOrderedField α]
    (x : FloatValue α) :
    (FloatValue.le x (FloatValue.finite (1 / 2)) = true → BoolScale.map x = false) ∧
      (FloatValue.lt (FloatValue.finite (1 / 2)) x = true → BoolScale.map x = true) ∧
      (x ≠ FloatValue.nan → BoolScale.reverseMap x = !BoolScale.map x) ∧
      BoolScale.map (FloatValue.nan : FloatValue α) = false ∧
      BoolScale.reverseMap (FloatValue.nan : FloatValue α) = false ∧
      ∀ b : Bool, BoolScale.map (BoolScale.invmap b : FloatValue α) = b := by
  have hhalf : (1 / 2 : α) < 1 := by norm_num
  have hpos : (0 : α) < 1 / 2 := by norm_num
  refine ⟨fun h => ?_, fun h => h, fun hx => ?_, rfl, rfl, fun b => ?_⟩
  · cases x with
    | finite y =>
      have hy : y ≤ 1 / 2 := of_decide_eq_true h
      show decide ((1 / 2 : α) < y) = false
      exact decide_eq_false (not_lt.mpr hy)
    | posInf => exact absurd h (by simp [FloatValue.le])
    | negInf => rfl
    | nan => rfl
  · cases x with
    | finite y =>
      show decide (y ≤ 1 / 2) = !decide ((1 / 2 : α) < y)
      by_cases hy : y ≤ 1 / 2
      · rw [decide_eq_true hy, decide_eq_false (not_lt.mpr hy)]
        rfl
      · rw [decide_eq_false hy, decide_eq_true (not_le.mp hy)]
        rfl
    | posInf => rfl
    | negInf => rfl
    | nan => exact absurd rfl hx
  · cases b
    · show decide ((1 / 2 : α) < if false = true then 1 else 0) = false
      simp only [Bool.false_eq_true, if_false]
      exact decide_eq_false (not_lt.mpr hpos.le)
    · show decide ((1 / 2 : α) < if true = true then 1 else 0) = true
      simp only [if_true]
      exact decide_eq_true hhalf

/-- C23 as stated fails.  For a NaN input both comparisons are false, so `map` and
`reverseMap` both return false and `reverseMap` is not the negation of `map`. -/
theorem boolScale_nan_counterexample :
    BoolScale.map (FloatValue.nan : FloatValue ℚ) = false ∧
      BoolScale.reverseMap (FloatValue.nan : FloatValue ℚ) = false ∧
      BoolScale.reverseMap (FloatValue.nan : FloatValue ℚ) ≠
        !BoolScale.map (FloatValue.nan : FloatValue ℚ) := by
  refine ⟨rfl, rfl, ?_⟩
  show (false : Bool) ≠ !false
  decide

/-- For `min < max` the linear scale is `min + x * (max - min)` on `[0, 1]`. -/
theorem linearScale_map_of_mem {α : Type*} [LinearOrderedField α] (min max x : α)
    (h : min < max) (h0 : 0 ≤ x) (h1 : x ≤ 1) :
    (LinearScale.set min max).map x = min + x * (max - min) := by
  have hs : 0 < max - min := sub_pos.mpr h
  have hlo : ¬ x * (max - min) + min < min := by
    have := mul_nonneg h0 hs.le
    linarith
  have hhi : ¬ x * (max - min) + min > max := by
    have : x * (max - min) ≤ 1 * (max - min) := mul_le_mul_of_nonneg_right h1 hs.le
    linarith
  simp only [LinearScale.map, LinearScale.set, hlo, hhi, if_false]
  ring

/-- The value returned by `invmap` is in `[0, 1]`, whatever the members hold. -/
theorem linearScale_invmap_mem {α : Type*} [LinearOrderedField α] (self : LinearScale α)
    (y : α) : 0 ≤ self.invmap y ∧ self.invmap y ≤ 1 := by
  unfold LinearScale.invmap
  by_cases h0 : (y - self.min) / self.scale < 0
  · simp only [h0, if_true]
    exact ⟨le_refl 0, zero_le_one⟩
  · by_cases h1 : (y - self.min) / self.scale > 1
    · simp only [h0, h1, if_true, if_false]
      exact ⟨zero_le_one, le_refl 1⟩
    · simp only [h0, h1, if_false]
      exact ⟨not_lt.mp h0, not_lt.mp h1⟩

/-- C21 at the failing input.  With `min = 1` and `max = 0` (which satisfies `min /= max`),
`map 0` returns `0`, that is `max`, `map 1` returns `1`, that is `min`, and `map (1/2)`
returns `1`; in general, for `min > max`, `map` returns `min` for every `x > 0` and `max`
for every `x ≤ 0`, so it is not `min + x * (max - min)` on `[0, 1]`. -/
theorem linearScale_map_min_gt_max :
    (LinearScale.set (1 : ℚ) 0).map 0 = 0 ∧ (LinearScale.set (1 : ℚ) 0).map 1 = 1 ∧
      (LinearScale.set (1 : ℚ) 0).map (1 / 2) = 1 ∧
      ∀ min max x : ℚ, max < min →
        (LinearScale.set min max).map x = if 0 < x then min else max := by
  have key : ∀ min max x : ℚ, max < min →
      (LinearScale.set min max).map x = if 0 < x then min else max := by
    intro min max x h
    have hs : max - min < 0 := sub_neg.mpr h
    by_cases hx : 0 < x
    · have hlo : x * (max - min) + min < min := by
        have := mul_neg_of_pos_of_neg hx hs
        linarith
      simp only [LinearScale.map, LinearScale.set, hlo, hx, if_true]
    · have hx' : x ≤ 0 := not_lt.mp hx
      have hnn : 0 ≤ x * (max - min) := mul_nonneg_of_nonpos_of_nonpos hx' hs.le
      have hlo : ¬ x * (max - min) + min < min := by linarith
      have hhi : x * (max - min) + min > max := by linarith
      simp only [LinearScale.map, LinearScale.set, hlo, hhi, hx, if_true, if_false]
  refine ⟨?_, ?_, ?_, key⟩
  · rw [key 1 0 0 (by norm_num)]; norm_num
  · rw [key 1 0 1 (by norm_num)]; norm_num
  · rw [key 1 0 (1 / 2) (by norm_num)]; norm_num

/-- C27. `LinearScale` round trip over exact arithmetic, for `min < max`:
`invmap (map x) = x` for every `x` in `[0, 1]` and `map (invmap y) = y` for every `y` in
`[min, max]`; inputs outside those ranges are clamped (`map` gives `min` below `0` and `max`
above `1`, `invmap` gives `0` below `min` and `1` above `max`), so `invmap` always returns a
value in `[0, 1]`; and `reverseMap x = map (1 - x)`. -/
theorem linearScale_round_trip {α : Type*} [LinearOrderedField α] (min max : α)
    (h : min < max) :
    (∀ x, 0 ≤ x → x ≤ 1 →
        (LinearScale.set min max).invmap ((LinearScale.set min max).map x) = x) ∧
      (∀ y, min ≤ y → y ≤ max →
        (LinearScale.set min max).map ((LinearScale.set min max).invmap y) = y) ∧
      (∀ x, x < 0 → (LinearScale.set min max).map x = min) ∧
      (∀ x, 1 < x → (LinearScale.set min max).map x = max) ∧
      (∀ y, y < min → (LinearScale.set min max).invmap y = 0) ∧
      (∀ y, max < y → (LinearScale.set min max).invmap y = 1) ∧
      (∀ y, 0 ≤ (LinearScale.set min max).invmap y ∧ (LinearScale.set min max).invmap y ≤ 1) ∧
      (∀ x, (LinearScale.set min max).reverseMap x = (LinearScale.set min max).map (1 - x)) := by
  have hs : 0 < max - min := sub_pos.mpr h
  have hne : max - min ≠ 0 := ne_of_gt hs
  have hinv : ∀ y, min ≤ y → y ≤ max →
      (LinearScale.set min max).invmap y = (y - min) / (max - min) := by
    intro y hy0 hy1
    have h0 : ¬ (y - min) / (max - min) < 0 :=
      not_lt.mpr (div_nonneg (sub_nonneg.mpr hy0) hs.le)
    have h1 : ¬ (y - min) / (max - min) > 1 := by
      rw [gt_iff_lt, not_lt, div_le_one hs]
      linarith
    simp only [LinearScale.invmap, LinearScale.set, h0, h1, if_false]
  refine ⟨fun x h0 h1 => ?_, fun y hy0 hy1 => ?_, fun x hx => ?_, fun x hx => ?_,
    fun y hy => ?_, fun y hy => ?_, fun y => linearScale_invmap_mem _ y, fun x => rfl⟩
  · rw [linearScale_map_of_mem min max x h h0 h1]
    have hmul : 0 ≤ x * (max - min) := mul_nonneg h0 hs.le
    have hmul1 : x * (max - min) ≤ 1 * (max - min) := mul_le_mul_of_nonneg_right h1 hs.le
    rw [hinv _ (by linarith) (by linarith)]
    field_simp
  · rw [hinv y hy0 hy1]
    have h0 : 0 ≤ (y - min) / (max - min) := div_nonneg (sub_nonneg.mpr hy0) hs.le
    have h1 : (y - min) / (max - min) ≤ 1 := by
      rw [div_le_one hs]
      linarith
    rw [linearScale_map_of_mem min max _ h h0 h1]
    field_simp
  · have hlo : x * (max - min) + min < min := by
      have := mul_neg_of_neg_of_pos hx hs
      linarith
    simp only [LinearScale.map, LinearScale.set, hlo, if_true]
  · have hlo : ¬ x * (max - min) + min < min := by
      have := mul_pos (lt_trans zero_lt_one hx) hs
      linarith
    have hhi : x * (max - min) + min > max := by
      have : 1 * (max - min) < x * (max - min) := mul_lt_mul_of_pos_right hx hs
      linarith
    simp only [LinearScale.map, LinearScale.set, hlo, hhi, if_true, if_false]
  · have h0 : (y - min) / (max - min) < 0 := div_neg_of_neg_of_pos (sub_neg.mpr hy) hs
    simp only [LinearScale.invmap, LinearScale.set, h0, if_true]
  · have h0 : ¬ (y - min) / (max - min) < 0 :=
      not_lt.mpr (div_nonneg (by linarith) hs.le)
    have h1 : (y - min) / (max - min) > 1 := by
      rw [gt_iff_lt, one_lt_div hs]
      linarith
    simp only [LinearScale.invmap, LinearScale.set, h0, h1, if_true, if_false]

/-- Witness for C27: the scale from `20` to `20000` over the rationals. -/
theorem linearScale_round_trip_witness :
    (20 : ℚ) < 20000 ∧
      ∀ x : ℚ, 0 ≤ x → x ≤ 1 →
        (LinearScale.set (20 : ℚ) 20000).invmap ((LinearScale.set (20 : ℚ) 20000).map x) = x :=
  ⟨by norm_num, (linearScale_round_trip (20 : ℚ) 20000 (by norm_num)).1⟩

/-! ### `LogScale` and `SPolyScale` over the reals -/

/-- Where the control point lies inside the input range, `LogScale` passes through it: for
all `min ≠ max` (in particular `min > max`), `0 < inValue < 1` and `outValue > min`, after
`set(min, max, inValue, outValue)` the scale satisfies `map(inValue) = outValue`, over exact
real arithmetic (`pow` is the real power, `log` the natural logarithm). -/
theorem logScale_map_inValue (min max inValue outValue : ℝ) (hne : min ≠ max)
    (h0 : 0 < inValue) (h1 : inValue < 1) (hout : min < outValue) :
    LogScale.map (fun x y : ℝ => x ^ y) (LogScale.set Real.log min max inValue outValue)
      inValue = outValue := by
  have hscale : 0 < |max - min| := abs_pos.mpr (sub_ne_zero.mpr (Ne.symm hne))
  have hnum : |outValue - min| = outValue - min := abs_of_pos (sub_pos.mpr hout)
  have ha : 0 < |outValue - min| / |max - min| := by
    rw [hnum]
    exact div_pos (sub_pos.mpr hout) hscale
  have hlog : Real.log inValue ≠ 0 := ne_of_lt (Real.log_neg h0 h1)
  have hpow : inValue ^ (Real.log (|outValue - min| / |max - min|) / Real.log inValue) =
      |outValue - min| / |max - min| := by
    rw [Real.rpow_def_of_pos h0, mul_div_cancel₀ _ hlog, Real.exp_log ha]
  have hlo : ¬ inValue < 0 := not_lt.mpr h0.le
  have hhi : ¬ inValue > 1 := not_lt.mpr h1.le
  simp only [LogScale.map, LogScale.set, hlo, hhi, if_false, hpow]
  rw [div_mul_cancel₀ _ (ne_of_gt hscale), hnum]
  ring

/-- An instance of the lemma above with a scale that is not constant: `min = 1`, `max = 0`,
`inValue = 1/2`, `outValue = 3/2` (the exponent is `1`, so `map x = x + 1` on `[0, 1]`). -/
theorem logScale_map_inValue_instance :
    LogScale.map (fun x y : ℝ => x ^ y) (LogScale.set Real.log 1 0 (1 / 2) (3 / 2)) (1 / 2) =
      3 / 2 :=
  logScale_map_inValue 1 0 (1 / 2) (3 / 2) (by norm_num) (by norm_num) (by norm_num)
    (by norm_num)

/-- C22 at the failing input.  `min = 1`, `max = 0`, `inValue = 2`, `outValue = 2` satisfy
the documented constraints (`min > max`, `inValue > 0`, `outValue > min`), but `map(2)`
takes the branch `input > 1` and returns `max = 0`, not `outValue = 2`; in general, for
every `inValue > 1`, `map(inValue)` is `max`, whatever `outValue` is. -/
theorem logScale_map_inValue_gt_one :
    (1 : ℝ) > 0 ∧ (2 : ℝ) > 0 ∧ (2 : ℝ) > 1 ∧
      LogScale.map (fun x y : ℝ => x ^ y) (LogScale.set Real.log 1 0 2 2) 2 = 0 ∧
      LogScale.map (fun x y : ℝ => x ^ y) (LogScale.set Real.log 1 0 2 2) 2 ≠ 2 ∧
      ∀ min max inValue outValue : ℝ, 1 < inValue →
        LogScale.map (fun x y : ℝ => x ^ y) (LogScale.set Real.log min max inValue outValue)
          inValue = max := by
  have key : ∀ min max inValue outValue : ℝ, 1 < inValue →
      LogScale.map (fun x y : ℝ => x ^ y) (LogScale.set Real.log min max inValue outValue)
        inValue = max := by
    intro min max inValue outValue h
    have hlo : ¬ inValue < 0 := not_lt.mpr (by linarith)
    have hhi : inValue > 1 := h
    simp only [LogScale.map, LogScale.set, hlo, hhi, if_true, if_false]
  have hmap := key 1 0 2 2 (by norm_num)
  refine ⟨by norm_num, by norm_num, by norm_num, hmap, ?_, key⟩
  rw [hmap]
  norm_num

/-- The lower half of the S-curve: on `[0, 1/2]` the scale is
`1/2 * (2 x) ^ power * (max - min) + min`. -/
theorem sPolyScale_map_low (min max power x : ℝ) (h0 : 0 ≤ x) (h1 : x ≤ 1 / 2) :
    SPolyScale.map (fun a b : ℝ => a ^ b) (SPolyScale.set min max power) x =
      1 / 2 * (2 * x) ^ power * (max - min) + min := by
  have hlo : ¬ x < 0 := not_lt.mpr h0
  have hhi : ¬ x > 1 := not_lt.mpr (by linarith)
  simp only [SPolyScale.map, SPolyScale.set, hlo, hhi, h1, if_true, if_false]

/-- The upper half of the S-curve: on `(1/2, 1]` the scale is
`(1 - 1/2 * (2 - 2 x) ^ power) * (max - min) + min`. -/
theorem sPolyScale_map_high (min max power x : ℝ) (h0 : 1 / 2 < x) (h1 : x ≤ 1) :
    SPolyScale.map (fun a b : ℝ => a ^ b) (SPolyScale.set min max power) x =
      (1 - 1 / 2 * (2 - 2 * x) ^ power) * (max - min) + min := by
  have hlo : ¬ x < 0 := not_lt.mpr (by linarith)
  have hhi : ¬ x > 1 := not_lt.mpr h1
  have hmid : ¬ x ≤ 1 / 2 := not_le.mpr h0
  simp only [SPolyScale.map, SPolyScale.set, hlo, hhi, hmid, if_false]

/-- On `[0, 1/2]` the normalised value `1/2 * (2 x) ^ power` lies in `[0, 1/2]`. -/
theorem sPoly_low_value_mem (power x : ℝ) (hp : 0 < power) (h0 : 0 ≤ x) (h1 : x ≤ 1 / 2) :
    0 ≤ 1 / 2 * (2 * x) ^ power ∧ 1 / 2 * (2 * x) ^ power ≤ 1 / 2 := by
  have hb0 : 0 ≤ 2 * x := by linarith
  have hb1 : 2 * x ≤ 1 := by linarith
  have hnn : 0 ≤ (2 * x) ^ power := Real.rpow_nonneg hb0 power
  have hle : (2 * x) ^ power ≤ 1 := Real.rpow_le_one hb0 hb1 hp.le
  constructor <;> linarith

/-- On `(1/2, 1]` the normalised value `1 - 1/2 * (2 - 2 x) ^ power` lies in `(1/2, 1]`. -/
theorem sPoly_high_value_mem (power x : ℝ) (hp : 0 < power) (h0 : 1 / 2 < x) (h1 : x ≤ 1) :
    1 / 2 < 1 - 1 / 2 * (2 - 2 * x) ^ power ∧ 1 - 1 / 2 * (2 - 2 * x) ^ power ≤ 1 := by
  have hb0 : 0 ≤ 2 - 2 * x := by linarith
  have hb1 : 2 - 2 * x < 1 := by linarith
  have hnn : 0 ≤ (2 - 2 * x) ^ power := Real.rpow_nonneg hb0 power
  have hlt : (2 - 2 * x) ^ power < 1 := Real.rpow_lt_one hb0 hb1 hp
  constructor <;> linarith

/-- Taking the power `power` and then the power `1 / power` of a non-negative number gives
the number back. -/
theorem rpow_rpow_one_div (power b : ℝ) (hp : 0 < power) (hb : 0 ≤ b) :
    (b ^ power) ^ (1 / power) = b := by
  rw [← Real.rpow_mul hb, mul_one_div_cancel (ne_of_gt hp), Real.rpow_one]

/-- For `min < max` and `power > 0` the S-curve is non-decreasing on `[0, 1]`. -/
theorem sPolyScale_map_mono (min max power x y : ℝ) (h : min < max) (hp : 0 < power)
    (hx : 0 ≤ x) (hxy : x ≤ y) (hy : y ≤ 1) :
    SPolyScale.map (fun a b : ℝ => a ^ b) (SPolyScale.set min max power) x ≤
      SPolyScale.map (fun a b : ℝ => a ^ b) (SPolyScale.set min max power) y := by
  have hs : 0 < max - min := sub_pos.mpr h
  by_cases hxl : x ≤ 1 / 2
  · by_cases hyl : y ≤ 1 / 2
    · rw [sPolyScale_map_low min max power x hx hxl,
        sPolyScale_map_low min max power y (le_trans hx hxy) hyl]
      have hpow : (2 * x) ^ power ≤ (2 * y) ^ power :=
        Real.rpow_le_rpow (by linarith) (by linarith) hp.le
      have : 1 / 2 * (2 * x) ^ power * (max - min) ≤ 1 / 2 * (2 * y) ^ power * (max - min) :=
        mul_le_mul_of_nonneg_right (by linarith) hs.le
      linarith
    · have hyh : 1 / 2 < y := not_le.mp hyl
      rw [sPolyScale_map_low min max power x hx hxl, sPolyScale_map_high min max power y hyh hy]
      have hv1 := (sPoly_low_value_mem power x hp hx hxl).2
      have hv2 := (sPoly_high_value_mem power y hp hyh hy).1
      have : 1 / 2 * (2 * x) ^ power * (max - min) ≤
          (1 - 1 / 2 * (2 - 2 * y) ^ power) * (max - min) :=
        mul_le_mul_of_nonneg_right (by linarith) hs.le
      linarith
  · have hxh : 1 / 2 < x := not_le.mp hxl
    have hyh : 1 / 2 < y := lt_of_lt_of_le hxh hxy
    rw [sPolyScale_map_high min max power x hxh (le_trans hxy hy),
      sPolyScale_map_high min max power y hyh hy]
    have hpow : (2 - 2 * y) ^ power ≤ (2 - 2 * x) ^ power :=
      Real.rpow_le_rpow (by linarith) (by linarith) hp.le
    have : (1 - 1 / 2 * (2 - 2 * x) ^ power) * (max - min) ≤
        (1 - 1 / 2 * (2 - 2 * y) ^ power) * (max - min) :=
      mul_le_mul_of_nonneg_right (by linarith) hs.le
    linarith

/-- For `min < max` and `power > 0`, `invmap` undoes `map` on `[0, 1]`. -/
theorem sPolyScale_invmap_map (min max power x : ℝ) (h : min < max) (hp : 0 < power)
    (hx0 : 0 ≤ x) (hx1 : x ≤ 1) :
    SPolyScale.invmap (fun a b : ℝ => a ^ b) (SPolyScale.set min max power)
      (SPolyScale.map (fun a b : ℝ => a ^ b) (SPolyScale.set min max power) x) = x := by
  have hs : 0 < max - min := sub_pos.mpr h
  have hne : max - min ≠ 0 := ne_of_gt hs
  -- `invmap` at `v * (max - min) + min` for a normalised value `v` in `[0, 1]`
  have hinv : ∀ v : ℝ, 0 ≤ v → v ≤ 1 →
      SPolyScale.invmap (fun a b : ℝ => a ^ b) (SPolyScale.set min max power)
        (v * (max - min) + min) =
      if v ≤ 1 / 2 then 1 / 2 * (2 * v) ^ (1 / power)
      else 1 - 1 / 2 * (2 - 2 * v) ^ (1 / power) := by
    intro v hv0 hv1
    have hm0 : 0 ≤ v * (max - min) := mul_nonneg hv0 hs.le
    have hm1 : v * (max - min) ≤ 1 * (max - min) := mul_le_mul_of_nonneg_right hv1 hs.le
    have hlo : ¬ v * (max - min) + min < min := by linarith
    have hhi : ¬ v * (max - min) + min > max := by linarith
    have hval : (v * (max - min) + min - min) / (max - min) = v := by
      field_simp
    simp only [SPolyScale.invmap, SPolyScale.set, hlo, hhi, if_false, hval]
  by_cases hxl : x ≤ 1 / 2
  · obtain ⟨v0, v1⟩ := sPoly_low_value_mem power x hp hx0 hxl
    rw [sPolyScale_map_low min max power x hx0 hxl, hinv _ v0 (by linarith), if_pos v1]
    have e : 2 * (1 / 2 * (2 * x) ^ power) = (2 * x) ^ power := by ring
    rw [e, rpow_rpow_one_div power (2 * x) hp (by linarith)]
    ring
  · have hxh : 1 / 2 < x := not_le.mp hxl
    obtain ⟨v0, v1⟩ := sPoly_high_value_mem power x hp hxh hx1
    rw [sPolyScale_map_high min max power x hxh hx1, hinv _ (by linarith) v1,
      if_neg (not_le.mpr v0)]
    have e : 2 - 2 * (1 - 1 / 2 * (2 - 2 * x) ^ power) = (2 - 2 * x) ^ power := by ring
    rw [e, rpow_rpow_one_div power (2 - 2 * x) hp (by linarith)]
    ring

/-- C28. `SPolyScale` is a point-symmetric S-curve with an inverse: for `min < max` and
`power > 0`, over real arithmetic, `map 0 = min`, `map 1 = max`,
`map (1/2) = (min + max) / 2`, `map (1 - x) = min + max - map x` for every `x` in `[0, 1]`,
`map` is non-decreasing on `[0, 1]`, and `invmap (map x) = x` for every `x` in `[0, 1]`. -/
theorem sPolyScale_symmetric_monotone_invertible (min max power : ℝ) (h : min < max)
    (hp : 0 < power) :
    SPolyScale.map (fun a b : ℝ => a ^ b) (SPolyScale.set min max power) 0 = min ∧
      SPolyScale.map (fun a b : ℝ => a ^ b) (SPolyScale.set min max power) 1 = max ∧
      SPolyScale.map (fun a b : ℝ => a ^ b) (SPolyScale.set min max power) (1 / 2) =
        (min + max) / 2 ∧
      (∀ x, 0 ≤ x → x ≤ 1 →
        SPolyScale.map (fun a b : ℝ => a ^ b) (SPolyScale.set min max power) (1 - x) =
          min + max - SPolyScale.map (fun a b : ℝ => a ^ b) (SPolyScale.set min max power) x) ∧
      (∀ x y, 0 ≤ x → x ≤ y → y ≤ 1 →
        SPolyScale.map (fun a b : ℝ => a ^ b) (SPolyScale.set min max power) x ≤
          SPolyScale.map (fun a b : ℝ => a ^ b) (SPolyScale.set min max power) y) ∧
      (∀ x, 0 ≤ x → x ≤ 1 →
        SPolyScale.invmap (fun a b : ℝ => a ^ b) (SPolyScale.set min max power)
          (SPolyScale.map (fun a b : ℝ => a ^ b) (SPolyScale.set min max power) x) = x) := by
  have hhalf : (1 / 2 : ℝ) < 1 := by norm_num
  refine ⟨?_, ?_, ?_, fun x hx0 hx1 => ?_,
    fun x y hx hxy hy => sPolyScale_map_mono min max power x y h hp hx hxy hy,
    fun x hx0 hx1 => sPolyScale_invmap_map min max power x h hp hx0 hx1⟩
  · rw [sPolyScale_map_low min max power 0 (le_refl 0) (by norm_num), mul_zero,
      Real.zero_rpow (ne_of_gt hp)]
    ring
  · rw [sPolyScale_map_high min max power 1 hhalf (le_refl 1)]
    have e : (2 : ℝ) - 2 * 1 = 0 := by norm_num
    rw [e, Real.zero_rpow (ne_of_gt hp)]
    ring
  · rw [sPolyScale_map_low min max power (1 / 2) (by norm_num) (le_refl _)]
    have e : (2 : ℝ) * (1 / 2) = 1 := by norm_num
    rw [e, Real.one_rpow]
    ring
  · rcases lt_trichotomy x (1 / 2) with hlt | heq | hgt
    · rw [sPolyScale_map_high min max power (1 - x) (by linarith) (by linarith),
        sPolyScale_map_low min max power x hx0 hlt.le]
      have e : 2 - 2 * (1 - x) = 2 * x := by ring
      rw [e]
      ring
    · rw [heq]
      have e1 : (1 : ℝ) - 1 / 2 = 1 / 2 := by norm_num
      rw [e1, sPolyScale_map_low min max power (1 / 2) (by norm_num) (le_refl _)]
      have e : (2 : ℝ) * (1 / 2) = 1 := by norm_num
      rw [e, Real.one_rpow]
      ring
    · rw [sPolyScale_map_low min max power (1 - x) (by linarith) (by linarith),
        sPolyScale_map_high min max power x hgt hx1]
      have e : 2 * (1 - x) = 2 - 2 * x := by ring
      rw [e]
      ring

/-- Witness for C28: the scale from `0` to `1` with the default power `2`. -/
theorem sPolyScale_symmetric_monotone_invertible_witness :
    (0 : ℝ) < 1 ∧ (0 : ℝ) < 2 ∧
      SPolyScale.map (fun a b : ℝ => a ^ b) (SPolyScale.set 0 1 2) (1 / 2) = (0 + 1) / 2 :=
  ⟨by norm_num, by norm_num,
    (sPolyScale_symmetric_monotone_invertible 0 1 2 (by norm_num) (by norm_num)).2.2.1⟩

end Scale

namespace Style

/-! ### `loadColor` -/

/-- A hexadecimal digit has a value of at most `15`, is not white space and is not a sign. -/
theorem hexDigit_facts (c : Char) (h : (hexDigit? c).isSome = true) :
    ∃ d : ℕ, hexDigit? c = some d ∧ d ≤ 15 ∧ isSpace c = false ∧ c ≠ '-' ∧ c ≠ '+' := by
  have hminus : ('-' : Char).toNat = 45 := by decide
  have hplus : ('+' : Char).toNat = 43 := by decide
  unfold hexDigit? at h ⊢
  by_cases h1 : 48 ≤ c.toNat ∧ c.toNat ≤ 57
  · refine ⟨c.toNat - 48, by simp only [h1, and_self, if_true], by omega, ?_, ?_, ?_⟩
    · simp only [isSpace, Bool.decide_or, Bool.decide_and, Bool.or_eq_false_iff,
        Bool.and_eq_false_iff, decide_eq_false_iff_not]
      omega
    · intro hc; rw [hc, hminus] at h1; omega
    · intro hc; rw [hc, hplus] at h1; omega
  · by_cases h2 : 97 ≤ c.toNat ∧ c.toNat ≤ 102
    · refine ⟨c.toNat - 87, by simp only [h1, h2, and_self, if_true, if_false], by omega,
        ?_, ?_, ?_⟩
      · simp only [isSpace, Bool.decide_or, Bool.decide_and, Bool.or_eq_false_iff,
          Bool.and_eq_false_iff, decide_eq_false_iff_not]
        omega
      · intro hc; rw [hc, hminus] at h2; omega
      · intro hc; rw [hc, hplus] at h2; omega
    · by_cases h3 : 65 ≤ c.toNat ∧ c.toNat ≤ 70
      · refine ⟨c.toNat - 55, by simp only [h1, h2, h3, and_self, if_true, if_false],
          by omega, ?_, ?_, ?_⟩
        · simp only [isSpace, Bool.decide_or, Bool.decide_and, Bool.or_eq_false_iff,
            Bool.and_eq_false_iff, decide_eq_false_iff_not]
          omega
        · intro hc; rw [hc, hminus] at h3; omega
        · intro hc; rw [hc, hplus] at h3; omega
      · simp only [h1, h2, h3, if_false, Option.isSome_none, Bool.false_eq_true] at h

/-- The value of a pair of hexadecimal digits is in `[0, 255]`. -/
theorem pairValue_mem (a b : Char) (ha : (hexDigit? a).isSome = true)
    (hb : (hexDigit? b).isSome = true) : 0 ≤ pairValue a b ∧ pairValue a b ≤ 255 := by
  obtain ⟨da, ea, la, _, _, _⟩ := hexDigit_facts a ha
  obtain ⟨db, eb, lb, _, _, _⟩ := hexDigit_facts b hb
  simp only [pairValue, ea, eb, Option.getD_some]
  constructor
  · exact Int.natCast_nonneg _
  · have : 16 * da + db ≤ 255 := by omega
    exact_mod_cast this

/-- On a pair of hexadecimal digits `strHexToUint8` returns the value of the pair. -/
theorem strHexToUint8_pair (a b : Char) (ha : (hexDigit? a).isSome = true)
    (hb : (hexDigit? b).isSome = true) : strHexToUint8 [a, b] = some (pairValue a b) := by
  obtain ⟨da, ea, la, sa, ma, pa⟩ := hexDigit_facts a ha
  obtain ⟨db, eb, lb, _, _, _⟩ := hexDigit_facts b hb
  have hhead1 : ¬ (some a = some '-') := fun h => ma (Option.some.inj h)
  have hhead2 : ¬ (some a = some '+') := fun h => pa (Option.some.inj h)
  have hstoi : stoi16 [a, b] = some ((16 * da + db : ℕ) : ℤ) := by
    have hrange : ¬ ((((16 * da + db : ℕ) : ℤ) < -2147483648) ∨
        (2147483647 < ((16 * da + db : ℕ) : ℤ))) := by
      have h0 : (0 : ℤ) ≤ ((16 * da + db : ℕ) : ℤ) := Int.natCast_nonneg _
      have h1 : ((16 * da + db : ℕ) : ℤ) ≤ 255 := by
        have : 16 * da + db ≤ 255 := by omega
        exact_mod_cast this
      omega
    simp only [stoi16, List.dropWhile_cons, sa, Bool.false_eq_true, if_false, List.head?_cons,
      hhead1, hhead2, or_self, List.takeWhile_cons, ha, hb, if_true, List.takeWhile_nil,
      List.filterMap_cons, ea, eb, List.filterMap_nil, List.foldl_cons, List.foldl_nil,
      mul_zero, zero_add, decide_False, hrange]
    simp [ea, eb]
    omega
  have hv0 : ¬ (((16 * da + db : ℕ) : ℤ) < 0) := not_lt.mpr (Int.natCast_nonneg _)
  have hv1 : ¬ ((255 : ℤ) < ((16 * da + db : ℕ) : ℤ)) := by
    have : 16 * da + db ≤ 255 := by omega
    have h1 : ((16 * da + db : ℕ) : ℤ) ≤ 255 := by exact_mod_cast this
    exact not_lt.mpr h1
  simp only [strHexToUint8, hstoi, Option.map_some', clamp, hv0, hv1, if_false, pairValue, ea,
    eb, Option.getD_some]

/-- A key whose value can be read is contained in the document. -/
theorem contains_of_get? (data : Json) (key : List Char) (v : JsonValue)
    (h : data.get? key = some v) : data.contains key = true := by
  cases data with
  | object members =>
    simp only [Json.get?] at h
    simp only [Json.contains, h, Option.isSome_some]
  | other => simp [Json.get?] at h

/-- C24. `loadColor` loads a colour only for strings of length `7` or `9`: if the key is
absent from the JSON object, or its value is not a string, or the string's length is neither
`7` nor `9`, the colour passed in is left unchanged (and no exception is thrown). -/
theorem loadColor_unchanged (data : Json) (key : List Char) (color : Color)
    (h : data.contains key = false ∨
      (∀ hex, data.get? key ≠ some (JsonValue.string hex)) ∨
      (∃ hex, data.get? key = some (JsonValue.string hex) ∧ hex.length ≠ 7 ∧ hex.length ≠ 9)) :
    loadColor data key color = some color := by
  unfold loadColor
  rcases h with h | h | ⟨hex, hget, h7, h9⟩
  · simp only [h, Bool.not_false, if_true]
  · by_cases hc : data.contains key = true
    · rw [hc]
      cases hv : data.get? key with
      | none => rfl
      | some v =>
        cases v with
        | string hex => exact absurd hv (h hex)
        | other => rfl
    · have hc' : data.contains key = false := Bool.eq_false_iff.mpr hc
      simp only [hc', Bool.not_false, if_true]
  · have hc := contains_of_get? data key _ hget
    simp only [hc, Bool.not_true, Bool.false_eq_true, if_false, hget, ne_eq, h7, h9,
      not_false_eq_true, and_self, if_true]

/-- Witness for C24: the value of `background` is a string of length `6`. -/
theorem loadColor_unchanged_witness :
    loadColor (Json.object [("background".toList, JsonValue.string "#12345".toList)])
        "background".toList { red := 1, green := 2, blue := 3, alpha := 4 } =
      some { red := 1, green := 2, blue := 3, alpha := 4 } :=
  loadColor_unchanged (Json.object [("background".toList, JsonValue.string "#12345".toList)])
    "background".toList { red := 1, green := 2, blue := 3, alpha := 4 }
    (Or.inr (Or.inr ⟨"#12345".toList, rfl, by decide, by decide⟩))

/-- The colour loaded from a string of length `7`: first character, then six hexadecimal
digits. -/
theorem loadColor_rgb (data : Json) (key : List Char) (color : Color)
    (c₀ h₁ h₂ h₃ h₄ h₅ h₆ : Char)
    (d₁ : (hexDigit? h₁).isSome = true) (d₂ : (hexDigit? h₂).isSome = true)
    (d₃ : (hexDigit? h₃).isSome = true) (d₄ : (hexDigit? h₄).isSome = true)
    (d₅ : (hexDigit? h₅).isSome = true) (d₆ : (hexDigit? h₆).isSome = true)
    (hget : data.get? key = some (JsonValue.string [c₀, h₁, h₂, h₃, h₄, h₅, h₆])) :
    loadColor data key color =
      some { red := pairValue h₁ h₂, green := pairValue h₃ h₄, blue := pairValue h₅ h₆,
             alpha := 255 } := by
  have hc := contains_of_get? data key _ hget
  have s1 : substr [c₀, h₁, h₂, h₃, h₄, h₅, h₆] 1 2 = [h₁, h₂] := rfl
  have s2 : substr [c₀, h₁, h₂, h₃, h₄, h₅, h₆] 3 2 = [h₃, h₄] := rfl
  have s3 : substr [c₀, h₁, h₂, h₃, h₄, h₅, h₆] 5 2 = [h₅, h₆] := rfl
  have hlen : [c₀, h₁, h₂, h₃, h₄, h₅, h₆].length = 7 := rfl
  unfold loadColor
  rw [hc, hget]
  simp only [Bool.not_true, Bool.false_eq_true, if_false, hlen, ne_eq, not_true_eq_false,
    false_and, s1, s2, s3, strHexToUint8_pair _ _ d₁ d₂, strHexToUint8_pair _ _ d₃ d₄,
    strHexToUint8_pair _ _ d₅ d₆]
  rfl

/-- The colour loaded from a string of length `9`: first character, then eight hexadecimal
digits. -/
theorem loadColor_rgba (data : Json) (key : List Char) (color : Color)
    (c₀ h₁ h₂ h₃ h₄ h₅ h₆ h₇ h₈ : Char)
    (d₁ : (hexDigit? h₁).isSome = true) (d₂ : (hexDigit? h₂).isSome = true)
    (d₃ : (hexDigit? h₃).isSome = true) (d₄ : (hexDigit? h₄).isSome = true)
    (d₅ : (hexDigit? h₅).isSome = true) (d₆ : (hexDigit? h₆).isSome = true)
    (d₇ : (hexDigit? h₇).isSome = true) (d₈ : (hexDigit? h₈).isSome = true)
    (hget : data.get? key = some (JsonValue.string [c₀, h₁, h₂, h₃, h₄, h₅, h₆, h₇, h₈])) :
    loadColor data key color =
      some { red := pairValue h₁ h₂, green := pairValue h₃ h₄, blue := pairValue h₅ h₆,
             alpha := pairValue h₇ h₈ } := by
  have hc := contains_of_get? data key _ hget
  have s1 : substr [c₀, h₁, h₂, h₃, h₄, h₅, h₆, h₇, h₈] 1 2 = [h₁, h₂] := rfl
  have s2 : substr [c₀, h₁, h₂, h₃, h₄, h₅, h₆, h₇, h₈] 3 2 = [h₃, h₄] := rfl
  have s3 : substr [c₀, h₁, h₂, h₃, h₄, h₅, h₆, h₇, h₈] 5 2 = [h₅, h₆] := rfl
  have s4 : substr [c₀, h₁, h₂, h₃, h₄, h₅, h₆, h₇, h₈] 7 2 = [h₇, h₈] := rfl
  have hlen : [c₀, h₁, h₂, h₃, h₄, h₅, h₆, h₇, h₈].length = 9 := rfl
  unfold loadColor
  rw [hc, hget]
  simp only [Bool.not_true, Bool.false_eq_true, if_false, hlen, ne_eq, not_true_eq_false,
    and_false, s1, s2, s3, s4, strHexToUint8_pair _ _ d₁ d₂, strHexToUint8_pair _ _ d₃ d₄,
    strHexToUint8_pair _ _ d₅ d₆, strHexToUint8_pair _ _ d₇ d₈]
  rfl

/-- The colour that `loadColor` builds from a string of length `7` or `9`, character by
character (the character at index `0` does not occur). -/
theorem loadColor_of_hex (data : Json) (key : List Char) (color : Color) (hex : List Char)
    (hget : data.get? key = some (JsonValue.string hex))
    (hlen : hex.length = 7 ∨ hex.length = 9)
    (hdig : ∀ c ∈ hex.tail, (hexDigit? c).isSome = true) :
    loadColor data key color =
        some { red := pairValue (hex.getD 1 '0') (hex.getD 2 '0'),
               green := pairValue (hex.getD 3 '0') (hex.getD 4 '0'),
               blue := pairValue (hex.getD 5 '0') (hex.getD 6 '0'),
               alpha := if hex.length = 9 then pairValue (hex.getD 7 '0') (hex.getD 8 '0')
                 else 255 } ∧
      (0 ≤ pairValue (hex.getD 1 '0') (hex.getD 2 '0') ∧
        pairValue (hex.getD 1 '0') (hex.getD 2 '0') ≤ 255) ∧
      (0 ≤ pairValue (hex.getD 3 '0') (hex.getD 4 '0') ∧
        pairValue (hex.getD 3 '0') (hex.getD 4 '0') ≤ 255) ∧
      (0 ≤ pairValue (hex.getD 5 '0') (hex.getD 6 '0') ∧
        pairValue (hex.getD 5 '0') (hex.getD 6 '0') ≤ 255) ∧
      (0 ≤ (if hex.length = 9 then pairValue (hex.getD 7 '0') (hex.getD 8 '0') else 255) ∧
        (if hex.length = 9 then pairValue (hex.getD 7 '0') (hex.getD 8 '0') else 255) ≤ 255) := by
  rcases hex with _ | ⟨c₀, _ | ⟨h₁, _ | ⟨h₂, _ | ⟨h₃, _ | ⟨h₄, _ | ⟨h₅, _ | ⟨h₆, _ |
    ⟨h₇, _ | ⟨h₈, _ | ⟨h₉, rest⟩⟩⟩⟩⟩⟩⟩⟩⟩⟩
  all_goals simp only [List.length_cons, List.length_nil] at hlen
  all_goals try omega
  · have d₁ := hdig h₁ (by simp)
    have d₂ := hdig h₂ (by simp)
    have d₃ := hdig h₃ (by simp)
    have d₄ := hdig h₄ (by simp)
    have d₅ := hdig h₅ (by simp)
    have d₆ := hdig h₆ (by simp)
    refine ⟨loadColor_rgb data key color c₀ h₁ h₂ h₃ h₄ h₅ h₆ d₁ d₂ d₃ d₄ d₅ d₆ hget,
      pairValue_mem _ _ d₁ d₂, pairValue_mem _ _ d₃ d₄, pairValue_mem _ _ d₅ d₆, ?_⟩
    show (0 : ℤ) ≤ 255 ∧ (255 : ℤ) ≤ 255
    exact ⟨by decide, by decide⟩
  · have d₁ := hdig h₁ (by simp)
    have d₂ := hdig h₂ (by simp)
    have d₃ := hdig h₃ (by simp)
    have d₄ := hdig h₄ (by simp)
    have d₅ := hdig h₅ (by simp)
    have d₆ := hdig h₆ (by simp)
    have d₇ := hdig h₇ (by simp)
    have d₈ := hdig h₈ (by simp)
    exact ⟨loadColor_rgba data key color c₀ h₁ h₂ h₃ h₄ h₅ h₆ h₇ h₈ d₁ d₂ d₃ d₄ d₅ d₆ d₇ d₈
      hget, pairValue_mem _ _ d₁ d₂, pairValue_mem _ _ d₃ d₄, pairValue_mem _ _ d₅ d₆,
      pairValue_mem _ _ d₇ d₈⟩

/-- C25. `loadColor` ignores the first character and decodes the rest as hexadecimal
pairs: for every string of length `7` or `9` whose characters after the first are
hexadecimal digits, the colour becomes `(R, G, B, A)` with `R`, `G`, `B` the values of the
character pairs `1-2`, `3-4`, `5-6` and `A` the value of the pair `7-8` when the length is
`9` and `255` when it is `7`; every component is in `[0, 255]`; and a string that differs
from it only in its first character gives the same colour. -/
theorem loadColor_decodes_hex_pairs (data data' : Json) (key : List Char) (color : Color)
    (hex hex' : List Char) (hget : data.get? key = some (JsonValue.string hex))
    (hlen : hex.length = 7 ∨ hex.length = 9)
    (hdig : ∀ c ∈ hex.tail, (hexDigit? c).isSome = true) :
    loadColor data key color =
        some { red := pairValue (hex.getD 1 '0') (hex.getD 2 '0'),
               green := pairValue (hex.getD 3 '0') (hex.getD 4 '0'),
               blue := pairValue (hex.getD 5 '0') (hex.getD 6 '0'),
               alpha := if hex.length = 9 then pairValue (hex.getD 7 '0') (hex.getD 8 '0')
                 else 255 } ∧
      (0 ≤ pairValue (hex.getD 1 '0') (hex.getD 2 '0') ∧
        pairValue (hex.getD 1 '0') (hex.getD 2 '0') ≤ 255) ∧
      (0 ≤ pairValue (hex.getD 3 '0') (hex.getD 4 '0') ∧
        pairValue (hex.getD 3 '0') (hex.getD 4 '0') ≤ 255) ∧
      (0 ≤ pairValue (hex.getD 5 '0') (hex.getD 6 '0') ∧
        pairValue (hex.getD 5 '0') (hex.getD 6 '0') ≤ 255) ∧
      (0 ≤ (if hex.length = 9 then pairValue (hex.getD 7 '0') (hex.getD 8 '0') else 255) ∧
        (if hex.length = 9 then pairValue (hex.getD 7 '0') (hex.getD 8 '0') else 255) ≤ 255) ∧
      (data'.get? key = some (JsonValue.string hex') → hex'.tail = hex.tail →
        loadColor data' key color = loadColor data key color) := by
  obtain ⟨a1, a2, a3, a4, a5⟩ := loadColor_of_hex data key color hex hget hlen hdig
  refine ⟨a1, a2, a3, a4, a5, fun hget' htail => ?_⟩
  rcases hex with _ | ⟨c₀, t⟩
  · simp at hlen
  · rcases hex' with _ | ⟨c₁, t'⟩
    · have ht : t = [] := by simpa using htail.symm
      rw [ht] at hlen
      simp at hlen
    · have ht : t' = t := by simpa using htail
      subst ht
      have b1 := (loadColor_of_hex data' key color (c₁ :: t') hget' hlen hdig).1
      rw [a1, b1]
      rfl

/-- Witness for C25: the strings `!303030` and ` 0000ff88` of the source comment give the
colours `(48, 48, 48, 255)` and `(0, 0, 255, 136)`. -/
theorem loadColor_decodes_hex_pairs_witness :
    loadColor (Json.object [("border".toList, JsonValue.string "!303030".toList)])
        "border".toList { red := 1, green := 2, blue := 3, alpha := 4 } =
      some { red := pairValue ("!303030".toList.getD 1 '0') ("!303030".toList.getD 2 '0'),
             green := pairValue ("!303030".toList.getD 3 '0') ("!303030".toList.getD 4 '0'),
             blue := pairValue ("!303030".toList.getD 5 '0') ("!303030".toList.getD 6 '0'),
             alpha := if "!303030".toList.length = 9 then
               pairValue ("!303030".toList.getD 7 '0') ("!303030".toList.getD 8 '0')
               else 255 } ∧
      loadColor (Json.object [("border".toList, JsonValue.string "!303030".toList)])
        "border".toList { red := 1, green := 2, blue := 3, alpha := 4 } =
        some { red := 48, green := 48, blue := 48, alpha := 255 } ∧
      loadColor (Json.object [("overlay".toList, JsonValue.string " 0000ff88".toList)])
        "overlay".toList { red := 1, green := 2, blue := 3, alpha := 4 } =
        some { red := 0, green := 0, blue := 255, alpha := 136 } :=
  ⟨(loadColor_decodes_hex_pairs
      (Json.object [("border".toList, JsonValue.string "!303030".toList)])
      (Json.object [("border".toList, JsonValue.string "#303030".toList)])
      "border".toList { red := 1, green := 2, blue := 3, alpha := 4 }
      "!303030".toList "#303030".toList rfl (by decide) (by decide)).1,
    by decide, by decide⟩

end Style

namespace SomeDSP

namespace BiquadOscN

variable {α : Type*} {size : ℕ}

/-! ### Amplitude -/

/-- C26. Amplitude invariant of the recurrence: over exact arithmetic, for every partial `i`
the quantity `u1[i]^2 - k[i] * u1[i] * u0[i] + u0[i]^2` is left unchanged by every call of
`process` (for any `k`, `u0`, `u1`), hence by any number of calls, and immediately after
`setup` it equals `sin(ω_i)^2` with `ω_i = twopi * frequency[i] / sampleRate`; so after
`setup` it is `sin(ω_i)^2` for ever and the amplitude of each partial never drifts. -/
theorem amplitudeSq_invariant [Field α] (sin cos : α → α) (twopi sampleRate : α)
    (o : BiquadOscN α size) (i : Fin size) :
    amplitudeSq (process o).1 i = amplitudeSq o i ∧
      (∀ n, amplitudeSq (afterProcess o n) i = amplitudeSq o i) ∧
      amplitudeSq (setup sin cos twopi sampleRate o) i =
        sin (twopi * o.frequency i / sampleRate) ^ 2 ∧
      (∀ n, amplitudeSq (afterProcess (setup sin cos twopi sampleRate o) n) i =
        sin (twopi * o.frequency i / sampleRate) ^ 2) := by
  have step : ∀ p : BiquadOscN α size, amplitudeSq (process p).1 i = amplitudeSq p i := by
    intro p
    obtain ⟨_, _, h3, h4, h5, _⟩ := process_loop p
    have e0 : (process p).1.u0 i = p.u1 i := h4 i
    have e1 : (process p).1.u1 i = p.k i * p.u1 i - p.u0 i := h5 i
    have ek : (process p).1.k i = p.k i := congrFun h3 i
    simp only [amplitudeSq, e0, e1, ek]
    ring
  have many : ∀ (p : BiquadOscN α size) (n : ℕ),
      amplitudeSq (afterProcess p n) i = amplitudeSq p i := by
    intro p n
    induction n with
    | zero => rfl
    | succ n ih => exact (step (afterProcess p n)).trans ih
  have hset : amplitudeSq (setup sin cos twopi sampleRate o) i =
      sin (twopi * o.frequency i / sampleRate) ^ 2 := by
    obtain ⟨_, _, a3, a4, _⟩ := setup_arrays sin cos twopi sampleRate o
    simp only [amplitudeSq, congrFun a3 i, congrFun a4 i]
    ring
  exact ⟨step o, many o, hset, fun n => (many _ n).trans hset⟩

end BiquadOscN

end SomeDSP

namespace DISTRHO

namespace SyncSawSynth

/-! ### A key pressed twice in one block -/

/-- Searching the held pairs for a note number that only the last pair has: the search
finds the last pair, and erasing it leaves the pairs before it. -/
theorem findIdx_last_pair (l : List (ℕ × ℕ)) (n id : ℕ) (hl : ∀ p ∈ l, p.1 ≠ n) :
    ∃ h : (l ++ [(n, id)]).findIdx (fun p => p.1 == n) < (l ++ [(n, id)]).length,
      ((l ++ [(n, id)]).get ⟨(l ++ [(n, id)]).findIdx (fun p => p.1 == n), h⟩).2 = id ∧
        (l ++ [(n, id)]).eraseIdx ((l ++ [(n, id)]).findIdx (fun p => p.1 == n)) = l := by
  have hfalse : ∀ x ∈ l, (fun p : ℕ × ℕ => p.1 == n) x = false := by
    intro x hx
    exact beq_eq_false_iff_ne.mpr (hl x hx)
  have hidx : (l ++ [(n, id)]).findIdx (fun p => p.1 == n) = l.length := by
    rw [List.findIdx_append, List.findIdx_eq_length_of_false hfalse]
    simp [List.findIdx_cons]
  have hlt : (l ++ [(n, id)]).findIdx (fun p => p.1 == n) < (l ++ [(n, id)]).length := by
    rw [hidx]; simp
  refine ⟨hlt, ?_, ?_⟩
  · have hget : (l ++ [(n, id)]).get
        ⟨(l ++ [(n, id)]).findIdx (fun p => p.1 == n), hlt⟩ = (n, id) := by
      simp [hidx]
    rw [hget]
  · rw [hidx, List.eraseIdx_append_of_length_le (le_refl _)]
    simp

/-- The note-off branch when only the last held pair has the note number. -/
theorem noteOffCase_last (t : SyncSawSynth) (ev : MidiEvent) (l : List (ℕ × ℕ)) (id : ℕ)
    (hl : t.lastNoteId = l ++ [(ev.data 1, id)]) (hno : ∀ p ∈ l, p.1 ≠ ev.data 1) :
    noteOffCase t ev = { t with dsp := t.dsp ++ [DspCall.noteOff id], lastNoteId := l } := by
  obtain ⟨h, hget, herase⟩ := findIdx_last_pair l (ev.data 1) id hno
  obtain ⟨dsp, wasPlaying, noteId, lastNoteId, alreadyRecievedNote⟩ := t
  simp only at hl
  subst hl
  simp only [noteOffCase, h, dite_true, hget, herase]

/-- C29. Re-press within one block is lost: if a block contains note-on(`n`), then
note-off(`n`), then note-on(`n`) again (velocities `> 0`, `n` not held before the block and
not in the de-duplication set, which is empty at a block start), the second note-on is
ignored because `n` is still in `alreadyRecievedNote`; so during the block exactly one
`dsp.noteOn` and one `dsp.noteOff` were issued, both with the id the counter had, and after
the block `lastNoteId` is what it was before and holds no entry for `n`. -/
theorem repress_within_block_lost (s : SyncSawSynth) (inp : RunInput) (n v₁ w v₃ : ℕ)
    (hnull : inp.outputsNull = false) (hby : inp.bypass = false)
    (hev : inp.midiEvents = [midi3 0x90 n v₁, midi3 0x80 n w, midi3 0x90 n v₃])
    (hv₁ : 0 < v₁) (hv₃ : 0 < v₃) (hdedup : n ∉ s.alreadyRecievedNote)
    (hheld : ∀ p ∈ s.lastNoteId, p.1 ≠ n) :
    n ∈ (handleMidi (handleMidi (runBegin s inp) (midi3 0x90 n v₁))
        (midi3 0x80 n w)).alreadyRecievedNote ∧
      handleMidi (handleMidi (handleMidi (runBegin s inp) (midi3 0x90 n v₁)) (midi3 0x80 n w))
          (midi3 0x90 n v₃) =
        handleMidi (handleMidi (runBegin s inp) (midi3 0x90 n v₁)) (midi3 0x80 n w) ∧
      (run s inp).dsp =
        (runBegin s inp).dsp ++ [DspCall.noteOn s.noteId n 0 ((v₁ : ℚ) / 127),
          DspCall.noteOff s.noteId, DspCall.setParameters, DspCall.process inp.frames] ∧
      (run s inp).lastNoteId = s.lastNoteId ∧
      (∀ p ∈ (run s inp).lastNoteId, p.1 ≠ n) ∧
      (run s inp).alreadyRecievedNote = [] := by
  obtain ⟨b1, b2, b3, _, _⟩ := runBegin_fields s inp
  have hnew : (midi3 0x90 n v₁).data 1 ∉ (runBegin s inp).alreadyRecievedNote := by
    rw [b3]; exact hdedup
  have e1 := handleMidi_accept (runBegin s inp) (midi3 0x90 n v₁) rfl
    (by rw [(midi3_bytes _ _ _).2.1]; decide) hv₁ hnew
  have hl1 : (handleMidi (runBegin s inp) (midi3 0x90 n v₁)).lastNoteId =
      s.lastNoteId ++ [((midi3 0x80 n w).data 1, s.noteId)] := by
    rw [e1]
    show (runBegin s inp).lastNoteId ++ [(n, (runBegin s inp).noteId)] = _
    rw [b1, b2]
    rfl
  have e2 : handleMidi (handleMidi (runBegin s inp) (midi3 0x90 n v₁)) (midi3 0x80 n w) =
      { handleMidi (runBegin s inp) (midi3 0x90 n v₁) with
        dsp := (handleMidi (runBegin s inp) (midi3 0x90 n v₁)).dsp ++
          [DspCall.noteOff s.noteId]
        lastNoteId := s.lastNoteId } := by
    rw [handleMidi_eq_noteOffCase _ _ rfl (by rw [(midi3_bytes _ _ _).2.1]; decide)]
    exact noteOffCase_last _ _ s.lastNoteId s.noteId hl1 hheld
  have hmem : n ∈ (handleMidi (handleMidi (runBegin s inp) (midi3 0x90 n v₁))
      (midi3 0x80 n w)).alreadyRecievedNote := by
    rw [e2, e1]
    show n ∈ (runBegin s inp).alreadyRecievedNote ++ [n]
    exact List.mem_append_right _ (List.mem_singleton_self n)
  have e3 : handleMidi (handleMidi (handleMidi (runBegin s inp) (midi3 0x90 n v₁))
      (midi3 0x80 n w)) (midi3 0x90 n v₃) =
      handleMidi (handleMidi (runBegin s inp) (midi3 0x90 n v₁)) (midi3 0x80 n w) := by
    rw [handleMidi_eq_noteOnCase _ _ rfl (by rw [(midi3_bytes _ _ _).2.1]; decide)]
    have hany : (handleMidi (handleMidi (runBegin s inp) (midi3 0x90 n v₁))
        (midi3 0x80 n w)).alreadyRecievedNote.any
        (fun noteNo => noteNo == (midi3 0x90 n v₃).data 1) = true :=
      List.any_eq_true.mpr ⟨n, hmem, beq_self_eq_true _⟩
    have hvel : (midi3 0x90 n v₃).data 2 > 0 := hv₃
    simp only [noteOnCase, hvel, hany, if_true]
  have hrun : run s inp =
      runEnd (handleMidi (handleMidi (runBegin s inp) (midi3 0x90 n v₁)) (midi3 0x80 n w))
        inp := by
    simp only [run, hnull, hby, Bool.false_eq_true, if_false, hev, List.foldl_cons,
      List.foldl_nil, e3]
  have hdsp : (run s inp).dsp =
      (runBegin s inp).dsp ++ [DspCall.noteOn s.noteId n 0 ((v₁ : ℚ) / 127),
        DspCall.noteOff s.noteId, DspCall.setParameters, DspCall.process inp.frames] := by
    rw [hrun, e2, e1]
    show ((runBegin s inp).dsp ++ [DspCall.noteOn (runBegin s inp).noteId n 0
      ((v₁ : ℚ) / (INT8_MAX : ℚ))] ++ [DspCall.noteOff s.noteId]) ++
      [DspCall.setParameters, DspCall.process inp.frames] = _
    rw [b1]
    simp [INT8_MAX]
  have hlast : (run s inp).lastNoteId = s.lastNoteId := by
    rw [hrun, e2]
    rfl
  refine ⟨hmem, e3, hdsp, hlast, ?_, ?_⟩
  · rw [hlast]
    exact hheld
  · rw [hrun]
    rfl

/-- Witness for C29: key `60` pressed, released and pressed again in the first block after
construction. -/
theorem repress_within_block_lost_witness :
    (run init (block [midi3 0x90 60 100, midi3 0x80 60 0, midi3 0x90 60 100])).dsp =
        (runBegin init
          (block [midi3 0x90 60 100, midi3 0x80 60 0, midi3 0x90 60 100])).dsp ++
          [DspCall.noteOn init.noteId 60 0 (((100 : ℕ) : ℚ) / 127),
            DspCall.noteOff init.noteId, DspCall.setParameters,
            DspCall.process
              (block [midi3 0x90 60 100, midi3 0x80 60 0, midi3 0x90 60 100]).frames] ∧
      (run init (block [midi3 0x90 60 100, midi3 0x80 60 0, midi3 0x90 60 100])).lastNoteId =
        init.lastNoteId :=
  ⟨(repress_within_block_lost init
      (block [midi3 0x90 60 100, midi3 0x80 60 0, midi3 0x90 60 100]) 60 100 0 100 rfl rfl rfl
      (by decide) (by decide) (by decide) (by decide)).2.2.1,
    (repress_within_block_lost init
      (block [midi3 0x90 60 100, midi3 0x80 60 0, midi3 0x90 60 100]) 60 100 0 100 rfl rfl rfl
      (by decide) (by decide) (by decide) (by decide)).2.2.2.1⟩

end SyncSawSynth

end DISTRHO
